import Mathlib

/-!
Verification of `src/actions/breakpoints/breakpointPositions.js`.

The development shallowly embeds the module: pure helpers
(`filterByUniqLocation`, `convertToList`, the lodash `zip`/`uniqBy`
combinators it uses, the range-end wrapping) become Lean functions, the
async pipeline `_setBreakpointPositions` becomes a function from
collaborator oracles and a stream of observed store states to an
`Except` outcome together with a trace of collaborator calls and store
writes, and the coalescing entry point `setBreakpointPositions` becomes
a small-step cooperative scheduler over a system of callers and
registered resolution tasks.
-/

namespace BreakpointPositions

abbrev SourceId := String

abbrev Err := String

/-- A store source record; the module only uses its `id` and `url`. -/
structure Source where
  id : SourceId
  url : String
  deriving DecidableEq, Repr

/-- A position in one coordinate system, as built by `convertToList`. -/
structure SourceLocation where
  sourceId : SourceId
  line : Nat
  column : Nat
  sourceUrl : String
  deriving DecidableEq, Repr

/-- A column number of a generated range end: a finite column or the
JavaScript `Infinity` used for unbounded range ends. -/
inductive Col where
  | fin (n : Nat)
  | inf
  deriving DecidableEq, Repr

/-- A `{line, column}` pair of a generated-coordinate range endpoint. -/
structure RangePos where
  line : Nat
  column : Col
  deriving DecidableEq, Repr

/-- A generated-coordinate range `{start, end}`. -/
structure Range where
  start : RangePos
  «end» : RangePos
  deriving DecidableEq, Repr

/-- A pair of an original-coordinate location (absent when translation
could not map the position, or when lodash `zip` padded a short
collaborator result) and its generated-coordinate counterpart (absent
only under `zip` padding). -/
structure MappedLocation where
  location : Option SourceLocation
  generatedLocation : Option SourceLocation
  deriving DecidableEq, Repr

/-- Modelled from the spec: the canonical-identity function over a
`SourceLocation` consumed by the Deduplicator (`makeBreakpointId` in
`utils/breakpoint`, which is not part of this fragment).  The spec fixes
it to be derived deterministically from the `(sourceId, line, column)`
of the location, so we model it as exactly that triple. -/
def makeBreakpointId (loc : SourceLocation) : SourceId × Nat × Nat :=
  (loc.sourceId, loc.line, loc.column)

/-- The dedup key computed by `filterByUniqLocation`'s iteratee
`({ location }) => makeBreakpointId(location)`: the identity function is
applied to the possibly-absent original location only, so every entry
with an absent location receives the one key `none`. -/
def bpKey (p : MappedLocation) : Option (SourceId × Nat × Nat) :=
  p.location.map makeBreakpointId

/-- Lodash `uniqBy` recursion: keep an element when its key has not been
seen yet, accumulating seen keys. -/
def uniqByAux {α : Type} {κ : Type} (key : α → κ) [DecidableEq κ] :
    List κ → List α → List α
  | _, [] => []
  | seen, x :: xs =>
    if key x ∈ seen then uniqByAux key seen xs
    else x :: uniqByAux key (key x :: seen) xs

/-- Lodash `uniqBy`: keeps the first occurrence of each key, preserving
the relative order of the survivors. -/
def uniqBy {α : Type} {κ : Type} (key : α → κ) [DecidableEq κ]
    (xs : List α) : List α :=
  uniqByAux key [] xs

/-- `filterByUniqLocation` from the source: `uniqBy(positions,
({ location }) => makeBreakpointId(location))`. -/
def filterByUniqLocation (positions : List MappedLocation) :
    List MappedLocation :=
  uniqBy bpKey positions

/-- Lodash `zip` over two lists: pairs by index and pads the shorter
side with `undefined` (here `none`) up to the longer length. -/
def lodashZip {α : Type} {β : Type} :
    List α → List β → List (Option α × Option β)
  | [], [] => []
  | [], y :: ys => (none, some y) :: lodashZip [] ys
  | x :: xs, [] => (some x, none) :: lodashZip xs []
  | x :: xs, y :: ys => (some x, some y) :: lodashZip xs ys

/-- The pure tail of `mapLocations` from the source: zip the translated
original locations (entries may be absent) with the generated inputs and
build `{ location, generatedLocation }` records.  `Option.join`
collapses a padding `undefined` and a collaborator `null` alike. -/
def mapLocationsPure (originalLocations : List (Option SourceLocation))
    (generatedLocations : List SourceLocation) : List MappedLocation :=
  (lodashZip originalLocations generatedLocations).map
    (fun p => { location := p.1.join, generatedLocation := p.2 })

/-- The range-end wrapping from the loop body of
`_setBreakpointPositions`: an `Infinity` end column is rewritten to the
start of the next line; a finite end column is left alone. -/
def wrapRangeEnd (range : Range) : Range :=
  if range.«end».column = Col.inf then
    { range with «end» := { line := range.«end».line + 1, column := Col.fin 0 } }
  else range

/-- A `LineColumnTable`: the line-to-columns object returned by
`client.getBreakpointPositions`, modelled as an association list from
line numbers to column lists in enumeration order. -/
abbrev Table := List (Nat × List Nat)

/-- One step of the result merge `results[line] = (results[line] ||
[]).concat(bps[line])`: append the columns to an existing line entry, or
add a new line key. -/
def upsertLine : Table → Nat → List Nat → Table
  | [], line, cols => [(line, cols)]
  | e :: es, line, cols =>
    if e.1 = line then (e.1, e.2 ++ cols) :: es
    else e :: upsertLine es line cols

/-- The `for (const line in bps)` merge loop folded over one fetched
table. -/
def mergeTable (results : Table) (bps : Table) : Table :=
  bps.foldl (fun acc e => upsertLine acc e.1 e.2) results

/-- `convertToList` from the source: flatten a line-to-columns table
into generated `SourceLocation`s stamped with the source's id and url. -/
def convertToList (results : Table) (source : Source) : List SourceLocation :=
  results.flatMap (fun e =>
    e.2.map (fun column =>
      { line := e.1
        column := column
        sourceId := source.id
        sourceUrl := source.url }))

/-- Modelled from the spec: the shared store's read state, holding a
source record per id (`getSource`) and the breakpoint-position table
(`hasBreakpointPositions` / `getBreakpointPositionsForSource`).  The
selectors themselves live outside this fragment. -/
structure StoreState where
  sources : SourceId → Option Source
  positions : SourceId → Option (List MappedLocation)

/-- Modelled from the spec: the `getSourceFromId` selector used for the
generated record (spec §4.2 "fetch its current record from the store");
an absent record is a store-level failure rather than a silent null. -/
def getSourceFromId (st : StoreState) (id : SourceId) : Except Err Source :=
  match st.sources id with
  | some src => Except.ok src
  | none => Except.error ("unknown source " ++ id)

/-- The arguments of one collaborator call issued by the pipeline. -/
inductive Call where
  | getBreakpointPositions (source : Source) (range : Option Range)
  | getOriginalLocations (generatedLocations : List SourceLocation)
  | getGeneratedRangesForOriginal (sourceId : SourceId) (url : String)
      (coverFully : Bool)
  deriving DecidableEq, Repr

/-- An observable event of a resolution task: a collaborator call or the
`ADD_BREAKPOINT_POSITIONS` store write. -/
inductive Act where
  | call (c : Call)
  | dispatch (source : Source) (positions : List MappedLocation)
  deriving DecidableEq, Repr

/-- Whether an event is a collaborator call (as opposed to the store
write). -/
def Act.isCall : Act → Bool
  | Act.call _ => true
  | Act.dispatch _ _ => false

/-- The collaborator oracles consumed by the module: the classification
helpers from `devtools-source-map`, the client's position fetch, and the
source-map service.  Each fallible collaborator is a deterministic
function from its arguments to an `Except` outcome. -/
structure Env where
  isOriginalId : SourceId → Bool
  originalToGeneratedId : SourceId → SourceId
  getBreakpointPositions : Source → Option Range → Except Err Table
  getOriginalLocations : List SourceLocation →
      Except Err (List (Option SourceLocation))
  getGeneratedRangesForOriginal : SourceId → String → Bool →
      Except Err (List Range)

/-- The error a given collaborator call would produce under the oracles,
if any. -/
def callError (env : Env) : Call → Option Err
  | Call.getBreakpointPositions source range =>
    match env.getBreakpointPositions source range with
    | Except.error e => some e
    | Except.ok _ => none
  | Call.getOriginalLocations locs =>
    match env.getOriginalLocations locs with
    | Except.error e => some e
    | Except.ok _ => none
  | Call.getGeneratedRangesForOriginal sourceId url coverFully =>
    match env.getGeneratedRangesForOriginal sourceId url coverFully with
    | Except.error e => some e
    | Except.ok _ => none

/-- The publish boundary, lines 107-116 of the source: re-fetch the
source record by id and either silently discard the result or emit the
single `ADD_BREAKPOINT_POSITIONS` write. -/
def publishStep (st : StoreState) (sourceId : SourceId)
    (positions : List MappedLocation) : Except Err Unit × List Act :=
  match st.sources sourceId with
  | none => (Except.ok (), [])
  | some source => (Except.ok (), [Act.dispatch source positions])

/-- The per-range fetch loop of `_setBreakpointPositions`: wrap each
range end, fetch positions for the wrapped range, and merge the results;
a failed fetch aborts the loop with that failure.  The trace records the
fetches actually issued, the failing one last. -/
def rangeLoop (env : Env) (generatedSource : Source) :
    List Range → Table → Except Err Table × List Act
  | [], acc => (Except.ok acc, [])
  | r :: rs, acc =>
    let r' := wrapRangeEnd r
    let c := Call.getBreakpointPositions generatedSource (some r')
    match env.getBreakpointPositions generatedSource (some r') with
    | Except.error e => (Except.error e, [Act.call c])
    | Except.ok bps =>
      let rest := rangeLoop env generatedSource rs (mergeTable acc bps)
      (rest.1, Act.call c :: rest.2)

/-- The tail of `_setBreakpointPositions` shared by both paths, lines
103-116: flatten, translate through `mapLocations` (one batched
`getOriginalLocations` call), deduplicate, then publish against the
store state observed at the re-check.  `st` is the state the re-check's
`getState()` observes. -/
def finishTail (env : Env) (st : StoreState) (sourceId : SourceId)
    (generatedSource : Source) (results : Table) :
    Except Err Unit × List Act :=
  let positions0 := convertToList results generatedSource
  let c := Call.getOriginalLocations positions0
  match env.getOriginalLocations positions0 with
  | Except.error e => (Except.error e, [Act.call c])
  | Except.ok originalLocations =>
    let positions1 := mapLocationsPure originalLocations positions0
    let positions2 := filterByUniqLocation positions1
    let post := publishStep st sourceId positions2
    (post.1, Act.call c :: post.2)

/-- `_setBreakpointPositions` from the source.  The store states
observed by its successive `getState()` calls are supplied by `σ`
(indexed by call count: the initial `getSource`, then on the original
path the generated-record fetch, then the publish re-check); the awaits
separating those calls are where other cooperative tasks may run.  The
result is the task's outcome together with its event trace. -/
def _setBreakpointPositions (env : Env) (σ : Nat → StoreState)
    (sourceId : SourceId) : Except Err Unit × List Act :=
  match (σ 0).sources sourceId with
  | none => (Except.ok (), [])
  | some generatedSource0 =>
    if env.isOriginalId sourceId then
      let c0 := Call.getGeneratedRangesForOriginal sourceId
        generatedSource0.url true
      match env.getGeneratedRangesForOriginal sourceId
          generatedSource0.url true with
      | Except.error e => (Except.error e, [Act.call c0])
      | Except.ok ranges =>
        match getSourceFromId (σ 1) (env.originalToGeneratedId sourceId) with
        | Except.error e => (Except.error e, [Act.call c0])
        | Except.ok generatedSource =>
          match rangeLoop env generatedSource ranges [] with
          | (Except.error e, tr) => (Except.error e, Act.call c0 :: tr)
          | (Except.ok results, tr) =>
            let post := finishTail env (σ 2) sourceId generatedSource results
            (post.1, Act.call c0 :: (tr ++ post.2))
    else
      let c0 := Call.getBreakpointPositions generatedSource0 none
      match env.getBreakpointPositions generatedSource0 none with
      | Except.error e => (Except.error e, [Act.call c0])
      | Except.ok results =>
        let post := finishTail env (σ 1) sourceId generatedSource0 results
        (post.1, Act.call c0 :: post.2)

instance {ε : Type} {α : Type} [DecidableEq ε] [DecidableEq α] :
    DecidableEq (Except ε α) := fun x y =>
  match x, y with
  | Except.ok a, Except.ok b =>
    if h : a = b then Decidable.isTrue (by rw [h])
    else Decidable.isFalse (by simp [h])
  | Except.ok _, Except.error _ => Decidable.isFalse (by simp)
  | Except.error _, Except.ok _ => Decidable.isFalse (by simp)
  | Except.error a, Except.error b =>
    if h : a = b then Decidable.isTrue (by rw [h])
    else Decidable.isFalse (by simp [h])

/-- The lifecycle of one `setBreakpointPositions(sourceId)` call: about
to run the entry body, suspended on the registered resolution task
`tid`, or returned with an outcome (the re-read position set, or the
re-raised task failure). -/
inductive CallerPhase where
  | start
  | waiting (tid : Nat)
  | done (outcome : Except Err (Option (List MappedLocation)))
  deriving DecidableEq, Repr

/-- One pending or finished call of the exported entry point. -/
structure Caller where
  sourceId : SourceId
  phase : CallerPhase
  deriving DecidableEq, Repr

/-- A slot of the process-wide `requests` machinery: a resolution task
that still has events to emit before settling, or a settled one holding
its outcome.  Settling and deregistration are one step, mirroring the
`try/finally` that runs before the task's promise resolves. -/
inductive TaskSlot where
  | running (sourceId : SourceId) (pending : List Act)
      (outcome : Except Err Unit)
  | finished (sourceId : SourceId) (outcome : Except Err Unit)
  deriving DecidableEq

/-- The source id a task slot belongs to. -/
def TaskSlot.sid : TaskSlot → SourceId
  | TaskSlot.running s _ _ => s
  | TaskSlot.finished s _ => s

/-- The whole cooperative system: the shared store, the process-wide
`requests` coalescing map, the spawned tasks, and the callers of
`setBreakpointPositions`, plus the global log of collaborator calls and
store writes. -/
structure Sys where
  store : StoreState
  requests : SourceId → Option Nat
  tasks : Nat → Option TaskSlot
  nextTid : Nat
  callers : List Caller
  log : List Act

/-- Modelled from the spec: the store's handling of the single
`ADD_BREAKPOINT_POSITIONS` write (the reducer is not part of this
fragment) — an atomic update of the breakpoint-position table at the
written source's id. -/
def applyDispatch (st : StoreState) (src : Source)
    (ps : List MappedLocation) : StoreState :=
  { st with positions := fun id => if id = src.id then some ps else st.positions id }

/-- Lines 139-140 of the source, resuming after `await
requests.get(sourceId)`: a rejected task re-raises its failure, a
settled one leads to a re-read of the store's position table. -/
def resumeWaiter (outcome : Except Err Unit) (st : StoreState)
    (sourceId : SourceId) : Except Err (Option (List MappedLocation)) :=
  match outcome with
  | Except.error e => Except.error e
  | Except.ok _ => Except.ok (st.positions sourceId)

/-- One scheduler step of caller `i`, covering the synchronous entry
segment of `setBreakpointPositions` (cache check, in-flight check,
registration of a fresh task whose behaviour is fixed by the oracles and
the current store) and the resumption of a caller whose awaited task has
settled. -/
def callerStep (env : Env) (sys : Sys) (i : Nat) : Sys :=
  match sys.callers.get? i with
  | none => sys
  | some caller =>
    match caller.phase with
    | CallerPhase.start =>
      let s := caller.sourceId
      match sys.store.positions s with
      | some ps =>
        { sys with callers :=
            sys.callers.set i ⟨s, CallerPhase.done (Except.ok (some ps))⟩ }
      | none =>
        match sys.requests s with
        | some tid =>
          { sys with callers :=
              sys.callers.set i ⟨s, CallerPhase.waiting tid⟩ }
        | none =>
          let r := _setBreakpointPositions env (fun _ => sys.store) s
          let tid := sys.nextTid
          { sys with
            tasks := fun t =>
              if t = tid then some (TaskSlot.running s r.2 r.1)
              else sys.tasks t
            requests := fun id => if id = s then some tid else sys.requests id
            nextTid := tid + 1
            callers := sys.callers.set i ⟨s, CallerPhase.waiting tid⟩ }
    | CallerPhase.waiting tid =>
      match sys.tasks tid with
      | some (TaskSlot.finished _ outcome) =>
        let o := resumeWaiter outcome sys.store caller.sourceId
        { sys with callers :=
            sys.callers.set i ⟨caller.sourceId, CallerPhase.done o⟩ }
      | _ => sys
    | CallerPhase.done _ => sys

/-- One scheduler step of resolution task `tid`: emit the next pending
collaborator call (an await, hence its own step), or run the final
synchronous segment — the store write, if any, together with settling
and deregistration — or, with no event left, settle and deregister. -/
def taskStep (sys : Sys) (tid : Nat) : Sys :=
  match sys.tasks tid with
  | some (TaskSlot.running s pending outcome) =>
    match pending with
    | [] =>
      { sys with
        tasks := fun t =>
          if t = tid then some (TaskSlot.finished s outcome) else sys.tasks t
        requests := fun id => if id = s then none else sys.requests id }
    | Act.call c :: rest =>
      { sys with
        tasks := fun t =>
          if t = tid then some (TaskSlot.running s rest outcome)
          else sys.tasks t
        log := sys.log ++ [Act.call c] }
    | Act.dispatch src ps :: rest =>
      if rest.isEmpty then
        { sys with
          store := applyDispatch sys.store src ps
          tasks := fun t =>
            if t = tid then some (TaskSlot.finished s outcome) else sys.tasks t
          requests := fun id => if id = s then none else sys.requests id
          log := sys.log ++ [Act.dispatch src ps] }
      else
        { sys with
          store := applyDispatch sys.store src ps
          tasks := fun t =>
            if t = tid then some (TaskSlot.running s rest outcome)
            else sys.tasks t
          log := sys.log ++ [Act.dispatch src ps] }
  | _ => sys

/-- A scheduling choice: advance one caller or one task. -/
inductive Choice where
  | caller (i : Nat)
  | task (tid : Nat)

/-- One step of the cooperative system under a scheduling choice. -/
def step (env : Env) (sys : Sys) : Choice → Sys
  | Choice.caller i => callerStep env sys i
  | Choice.task tid => taskStep sys tid

/-- Run the system under a schedule. -/
def runChoices (env : Env) (sys : Sys) (cs : List Choice) : Sys :=
  cs.foldl (step env) sys

/-- The initial system: a store, no registrations, no tasks, and one
fresh caller of `setBreakpointPositions` per requested id. -/
def initSys (st0 : StoreState) (ids : List SourceId) : Sys :=
  { store := st0
    requests := fun _ => none
    tasks := fun _ => none
    nextTid := 0
    callers := ids.map (fun s => ⟨s, CallerPhase.start⟩)
    log := [] }

/-- A well-formed store maps each id to a record carrying that id. -/
def WFStore (st : StoreState) : Prop :=
  ∀ id src, st.sources id = some src → src.id = id

/-- A trace containing only collaborator calls — no store write. -/
def callsOnly (tr : List Act) : Prop :=
  ∀ a, a ∈ tr → a.isCall = true

/-- Whether an event is a `getGeneratedRangesForOriginal` call. -/
def Act.isRangesCall : Act → Bool
  | Act.call (Call.getGeneratedRangesForOriginal _ _ _) => true
  | _ => false

/-- The behaviour a resolution task for `s` has under oracles `env` and
a store whose source table never changes from `st0`'s: the pipeline
reads only the source table, so this fixes every spawned task's outcome
and event trace. -/
def taskSpec (env : Env) (st0 : StoreState) (s : SourceId) :
    Except Err Unit × List Act :=
  _setBreakpointPositions env (fun _ => st0) s

/-- The position set a resolution task for `s` publishes, if any: the
payload of the trailing store write of its trace. -/
def pubPos (env : Env) (st0 : StoreState) (s : SourceId) :
    Option (List MappedLocation) :=
  match (taskSpec env st0 s).2.getLast? with
  | some (Act.dispatch _ ps) => some ps
  | _ => none

/-- The one outcome every completed call for `s` observes in a run from
`st0`: the pre-cached set if there is one, the task failure if the
pipeline fails, and otherwise the published set (or `none` when the
task no-ops). -/
def canonicalOutcome (env : Env) (st0 : StoreState) (s : SourceId) :
    Except Err (Option (List MappedLocation)) :=
  match st0.positions s with
  | some ps => Except.ok (some ps)
  | none =>
    match (taskSpec env st0 s).1 with
    | Except.error e => Except.error e
    | Except.ok _ => Except.ok (pubPos env st0 s)

/-- The inductive invariant of the cooperative system over runs from a
store with source table `st0.sources`: the source table never changes;
the `requests` map and the task slots are consistent (a registration
points at a live task for that id, a live task is registered, and its
remaining events are a suffix of its fixed trace); the position table
deviates from the initial one exactly at ids whose task has published;
and every finished caller carries the canonical outcome for its id. -/
structure Inv (env : Env) (st0 : StoreState) (sys : Sys) : Prop where
  srcEq : sys.store.sources = st0.sources
  reqTask : ∀ s tid, sys.requests s = some tid →
    ∃ p o, sys.tasks tid = some (TaskSlot.running s p o)
  runReg : ∀ tid s p o, sys.tasks tid = some (TaskSlot.running s p o) →
    sys.requests s = some tid
  runOutcome : ∀ tid s p o, sys.tasks tid = some (TaskSlot.running s p o) →
    o = (taskSpec env st0 s).1
  runPending : ∀ tid s p o, sys.tasks tid = some (TaskSlot.running s p o) →
    p <:+ (taskSpec env st0 s).2
  runNilPub : ∀ tid s p o, sys.tasks tid = some (TaskSlot.running s p o) →
    p = [] → pubPos env st0 s = none
  runStale : ∀ tid s p o, sys.tasks tid = some (TaskSlot.running s p o) →
    st0.positions s = none
  finOutcome : ∀ tid s o, sys.tasks tid = some (TaskSlot.finished s o) →
    o = (taskSpec env st0 s).1
  finPos : ∀ tid s o, sys.tasks tid = some (TaskSlot.finished s o) →
    sys.store.positions s = pubPos env st0 s ∧ st0.positions s = none
  posPub : ∀ s, sys.store.positions s = st0.positions s ∨
    (st0.positions s = none ∧
      sys.store.positions s = pubPos env st0 s ∧
      pubPos env st0 s ≠ none ∧
      ∀ tid p o, sys.tasks tid ≠ some (TaskSlot.running s p o))
  doneOut : ∀ i s o, sys.callers.get? i = some ⟨s, CallerPhase.done o⟩ →
    o = canonicalOutcome env st0 s
  waitLt : ∀ i s tid,
    sys.callers.get? i = some ⟨s, CallerPhase.waiting tid⟩ →
    tid < sys.nextTid
  waitSid : ∀ i s tid,
    sys.callers.get? i = some ⟨s, CallerPhase.waiting tid⟩ →
    ∀ slot, sys.tasks tid = some slot → slot.sid = s
  fresh : ∀ tid, sys.nextTid ≤ tid → sys.tasks tid = none

/-- Fixture: a generated source record for concrete runs. -/
def srcG : Source := { id := "g", url := "u" }

/-- Fixture: a generated location in `srcG`. -/
def locG1 : SourceLocation :=
  { sourceId := "g", line := 1, column := 0, sourceUrl := "u" }

/-- Fixture: a second, distinct generated location in `srcG`. -/
def locG2 : SourceLocation :=
  { sourceId := "g", line := 2, column := 0, sourceUrl := "u" }

/-- Fixture: an original location. -/
def locO1 : SourceLocation :=
  { sourceId := "o", line := 7, column := 2, sourceUrl := "foo" }

/-- Fixture: oracles for a plain generated source whose fetch returns
one position at line 1 column 0 and whose translation shifts lines by
six. -/
def envW : Env :=
  { isOriginalId := fun _ => false
    originalToGeneratedId := fun s => s
    getBreakpointPositions := fun _ _ => Except.ok [(1, [0])]
    getOriginalLocations := fun locs =>
      Except.ok (locs.map (fun l => some { l with line := l.line + 6 }))
    getGeneratedRangesForOriginal := fun _ _ _ => Except.ok [] }

/-- Fixture: oracles whose client position fetch always fails. -/
def envF : Env :=
  { envW with getBreakpointPositions := fun _ _ => Except.error "boom" }

/-- Fixture: a store holding only the record of `srcG`, with an empty
position table. -/
def storeW : StoreState :=
  { sources := fun id => if id = "g" then some srcG else none
    positions := fun _ => none }

/-- Fixture: `storeW` with a position set already cached for `"g"`. -/
def storeC : StoreState :=
  { sources := storeW.sources
    positions := fun id =>
      if id = "g" then some [⟨some locO1, some locG1⟩] else none }

/-- Fixture: an original source record whose url differs from its
generated source's url. -/
def srcO : Source := { id := "o", url := "original.js" }

/-- Fixture: the generated record behind `srcO`. -/
def srcGB : Source := { id := "g", url := "bundle.js" }

/-- Fixture: oracles classifying `"o"` as original with generated id
`"g"`. -/
def envO : Env :=
  { isOriginalId := fun s => s == "o"
    originalToGeneratedId := fun s => if s = "o" then "g" else s
    getBreakpointPositions := fun _ _ => Except.ok []
    getOriginalLocations := fun locs => Except.ok (locs.map some)
    getGeneratedRangesForOriginal := fun _ _ _ => Except.ok [] }

/-- Fixture: the store holding both `srcO` and `srcGB`. -/
def storeO : StoreState :=
  { sources := fun id =>
      if id = "o" then some srcO else if id = "g" then some srcGB else none
    positions := fun _ => none }

/-- Fixture: a store with no source records at all. -/
def storeA : StoreState :=
  { sources := fun _ => none, positions := fun _ => none }

/-- Fixture: a system holding one registered resolution task for `"g"`
that has emitted all its events and is about to settle, with its owner
awaiting it. -/
def sysT : Sys :=
  { store := storeW
    requests := fun id => if id = "g" then some 0 else none
    tasks := fun t =>
      if t = 0 then some (TaskSlot.running "g" [] (Except.ok ())) else none
    nextTid := 1
    callers := [⟨"g", CallerPhase.waiting 0⟩]
    log := [] }

theorem uniqByAux_sublist {α : Type} {κ : Type} (key : α → κ) [DecidableEq κ] :
    ∀ (xs : List α) (seen : List κ), (uniqByAux key seen xs).Sublist xs := by
  intro xs
  induction xs with
  | nil => intro seen; simp [uniqByAux]
  | cons x xs ih =>
    intro seen
    simp only [uniqByAux]
    split
    · exact (ih seen).trans (List.sublist_cons_self x xs)
    · exact (ih (key x :: seen)).cons₂ x

theorem uniqByAux_filter_key {α : Type} {κ : Type} (key : α → κ)
    [DecidableEq κ] (k₀ : κ) :
    ∀ (xs : List α) (seen : List κ),
      (uniqByAux key seen xs).filter (fun y => decide (key y = k₀)) =
        if k₀ ∈ seen then []
        else (xs.filter (fun y => decide (key y = k₀))).take 1 := by
  intro xs
  induction xs with
  | nil => intro seen; simp [uniqByAux]
  | cons x xs ih =>
    intro seen
    simp only [uniqByAux]
    by_cases hx : key x ∈ seen
    · rw [if_pos hx, ih seen]
      by_cases hk : key x = k₀
      · rw [if_pos (hk ▸ hx), List.filter_cons_of_pos (by simpa using hk),
          if_pos (hk ▸ hx)]
      · rw [List.filter_cons_of_neg (by simpa using hk)]
    · rw [if_neg hx]
      by_cases hk : key x = k₀
      · rw [List.filter_cons_of_pos (by simpa using hk), ih,
          if_pos (by simp [hk]), if_neg (hk ▸ hx),
          List.filter_cons_of_pos (by simpa using hk)]
        simp
      · rw [List.filter_cons_of_neg (by simpa using hk), ih,
          List.filter_cons_of_neg (by simpa using hk)]
        by_cases hks : k₀ ∈ seen
        · rw [if_pos (List.mem_cons_of_mem _ hks), if_pos hks]
        · have hnc : k₀ ∉ key x :: seen := by
            simp only [List.mem_cons]
            rintro (h1 | h2)
            · exact hk h1.symm
            · exact hks h2
          rw [if_neg hnc, if_neg hks]

theorem uniqBy_filter_key {α : Type} {κ : Type} (key : α → κ)
    [DecidableEq κ] (k₀ : κ) (xs : List α) :
    (uniqBy key xs).filter (fun y => decide (key y = k₀)) =
      (xs.filter (fun y => decide (key y = k₀))).take 1 := by
  rw [uniqBy, uniqByAux_filter_key, if_neg (List.not_mem_nil k₀)]

theorem lodashZip_length {α : Type} {β : Type} :
    ∀ (xs : List α) (ys : List β),
      (lodashZip xs ys).length = max xs.length ys.length := by
  intro xs
  induction xs with
  | nil =>
    intro ys
    induction ys with
    | nil => simp [lodashZip]
    | cons y ys ih => simp [lodashZip, ih]
  | cons x xs ih =>
    intro ys
    cases ys with
    | nil =>
      simp only [lodashZip, List.length_cons, ih, List.length_nil]
      omega
    | cons y ys =>
      simp only [lodashZip, List.length_cons, ih]
      omega

theorem lodashZip_get? {α : Type} {β : Type} :
    ∀ (xs : List α) (ys : List β) (i : Nat) (x : α) (y : β),
      xs.get? i = some x → ys.get? i = some y →
      (lodashZip xs ys).get? i = some (some x, some y) := by
  intro xs
  induction xs with
  | nil => intro ys i x y hx; simp at hx
  | cons a xs ih =>
    intro ys i x y hx hy
    cases ys with
    | nil => simp at hy
    | cons b ys =>
      cases i with
      | zero =>
        simp only [List.get?] at hx hy
        simp [lodashZip, ← Option.some_inj.mp hx, ← Option.some_inj.mp hy]
      | succ n =>
        simp only [List.get?] at hx hy
        simpa [lodashZip] using ih ys n x y hx hy

/-- C4 counterexample: the Deduplicator does not fall back to the
generated-coordinate identity for entries whose original location is
absent.  Two entries with absent original locations but distinct
generated locations share the single absent-location key, so the second
is dropped, contradicting "removed only when a later entry has the
identical fallback key". -/
theorem c4_null_fallback_counterexample :
    filterByUniqLocation
        [{ location := none, generatedLocation := some locG1 },
         { location := none, generatedLocation := some locG2 }] =
      [{ location := none, generatedLocation := some locG1 }] ∧
    (some locG1 : Option SourceLocation) ≠ some locG2 := by
  constructor
  · rfl
  · decide

/-- C4 (amended): an entry whose original location is absent is keyed by
the one shared absent-location key, regardless of its generated
coordinates — the first absent-location entry of the sequence survives
and every later absent-location entry is removed. -/
theorem c4_null_location_collapses_to_first (xs : List MappedLocation) :
    (filterByUniqLocation xs).filter (fun p => p.location.isNone) =
      (xs.filter (fun p => p.location.isNone)).take 1 := by
  have hfun : (fun p : MappedLocation => p.location.isNone) =
      (fun p : MappedLocation => decide (bpKey p = none)) := by
    funext p
    cases h : p.location <;> simp [bpKey, h]
  rw [hfun, filterByUniqLocation, uniqBy_filter_key]

/-- C5: the Deduplicator keeps exactly the first occurrence of each
canonical original-location identity, preserves the relative input
order of the survivors, and collapses two entries sharing an original
`(sourceId, line, column)` to the first-by-order entry. -/
theorem c5_dedup_first_occurrence (xs : List MappedLocation) :
    (filterByUniqLocation xs).Sublist xs ∧
    (∀ k : SourceId × Nat × Nat,
      (filterByUniqLocation xs).filter (fun p => decide (bpKey p = some k)) =
        (xs.filter (fun p => decide (bpKey p = some k))).take 1) ∧
    (∀ a b : MappedLocation, ∀ la lb : SourceLocation,
      a.location = some la → b.location = some lb →
      makeBreakpointId la = makeBreakpointId lb →
      filterByUniqLocation [a, b] = [a]) := by
  refine ⟨uniqByAux_sublist bpKey xs [],
    fun k => uniqBy_filter_key bpKey (some k) xs, ?_⟩
  intro a b la lb ha hb hk
  simp [filterByUniqLocation, uniqBy, uniqByAux, bpKey, ha, hb, hk]

/-- C5 witness: two entries at original `(o, 7, 2)` with distinct
generated locations collapse to the first. -/
theorem c5_dedup_first_occurrence_witness :
    filterByUniqLocation
        [{ location := some locO1, generatedLocation := some locG1 },
         { location := some locO1, generatedLocation := some locG2 }] =
      [{ location := some locO1, generatedLocation := some locG1 }] :=
  (c5_dedup_first_occurrence []).2.2
    { location := some locO1, generatedLocation := some locG1 }
    { location := some locO1, generatedLocation := some locG2 }
    locO1 locO1 rfl rfl rfl

/-- C7: an unbounded range end `{line, Infinity}` is rewritten to
`{line + 1, 0}`, a finite end is left unchanged, and the wrapped range
is what the position fetch is issued with. -/
theorem c7_range_normalization (r : Range) (env : Env) (gs : Source)
    (rs : List Range) (acc : Table) :
    (r.«end».column = Col.inf →
      wrapRangeEnd r =
        { start := r.start
          «end» := { line := r.«end».line + 1, column := Col.fin 0 } }) ∧
    (r.«end».column ≠ Col.inf → wrapRangeEnd r = r) ∧
    (rangeLoop env gs (r :: rs) acc).2.head? =
      some (Act.call (Call.getBreakpointPositions gs (some (wrapRangeEnd r)))) := by
  refine ⟨fun h => ?_, fun h => ?_, ?_⟩
  · simp [wrapRangeEnd, h]
  · simp [wrapRangeEnd, h]
  · simp only [rangeLoop]
    split <;> simp

/-- C7 witness: `{end: {line: 5, column: Infinity}}` normalizes to
`{end: {line: 6, column: 0}}` and a finite-end range is unchanged. -/
theorem c7_range_normalization_witness :
    wrapRangeEnd { start := { line := 1, column := Col.fin 0 },
                   «end» := { line := 5, column := Col.inf } } =
      { start := { line := 1, column := Col.fin 0 },
        «end» := { line := 6, column := Col.fin 0 } } ∧
    wrapRangeEnd { start := { line := 1, column := Col.fin 0 },
                   «end» := { line := 5, column := Col.fin 7 } } =
      { start := { line := 1, column := Col.fin 0 },
        «end» := { line := 5, column := Col.fin 7 } } :=
  ⟨(c7_range_normalization _ envW srcG [] []).1 rfl,
   (c7_range_normalization _ envW srcG [] []).2.1 (by decide)⟩

/-- C8: given translated locations of the same length as the generated
inputs, the Location Mapper builds exactly one `MappedLocation` per
index, pairing the collaborator's result at `i` with the input at `i`,
by position and not by value. -/
theorem c8_index_correspondence (o : List (Option SourceLocation))
    (g : List SourceLocation) (h : o.length = g.length) :
    (mapLocationsPure o g).length = g.length ∧
    ∀ i la lg, o.get? i = some la → g.get? i = some lg →
      (mapLocationsPure o g).get? i =
        some { location := la, generatedLocation := some lg } := by
  constructor
  · simp [mapLocationsPure, lodashZip_length, h]
  · intro i la lg ho hg
    have hz := lodashZip_get? o g i la lg ho hg
    rw [List.get?_eq_getElem?] at hz
    simp [mapLocationsPure, List.get?_eq_getElem?, hz, Option.join]

/-- C8 witness: a two-element batch pairs index 0 with index 0. -/
theorem c8_index_correspondence_witness :
    (mapLocationsPure [some locO1, none] [locG1, locG2]).get? 0 =
      some { location := some locO1, generatedLocation := some locG1 } :=
  (c8_index_correspondence [some locO1, none] [locG1, locG2] rfl).2 0
    (some locO1) locG1 rfl rfl

/-- C9: a resolution task for an id with no store record is a defined
no-op — with the record absent at the start the task returns without
any collaborator call, and with the record absent at the publish
re-check the publish boundary writes nothing and raises nothing. -/
theorem c9_stale_source_noop (env : Env) (σ : Nat → StoreState)
    (s : SourceId) (st : StoreState) (ps : List MappedLocation) :
    ((σ 0).sources s = none →
      _setBreakpointPositions env σ s = (Except.ok (), [])) ∧
    (st.sources s = none → publishStep st s ps = (Except.ok (), [])) := by
  constructor
  · intro h
    simp [_setBreakpointPositions, h]
  · intro h
    simp [publishStep, h]

theorem filter_nil_of_false {α : Type} (p : α → Bool) :
    ∀ (l : List α), (∀ a, a ∈ l → p a = false) → l.filter p = [] := by
  intro l h
  induction l with
  | nil => rfl
  | cons x xs ih =>
    rw [List.filter_cons_of_neg (by simp [h x (List.mem_cons_self x xs)])]
    exact ih (fun a ha => h a (List.mem_cons_of_mem x ha))

theorem getLast?_cons_ne_nil {α : Type} (a : α) (l : List α) (h : l ≠ []) :
    (a :: l).getLast? = l.getLast? := by
  cases l with
  | nil => exact absurd rfl h
  | cons b bs => rfl

theorem getLast?_append_ne_nil {α : Type} (l₁ l₂ : List α) (h : l₂ ≠ []) :
    (l₁ ++ l₂).getLast? = l₂.getLast? := by
  induction l₁ with
  | nil => rfl
  | cons a l ih =>
    rw [List.cons_append, getLast?_cons_ne_nil _ _ (by simp [h]), ih]

theorem rangeLoop_callsOnly (env : Env) (gs : Source) :
    ∀ (rs : List Range) (acc : Table), callsOnly (rangeLoop env gs rs acc).2 := by
  intro rs
  induction rs with
  | nil => intro acc a ha; simp [rangeLoop] at ha
  | cons r rs ih =>
    intro acc a ha
    cases hbp : env.getBreakpointPositions gs (some (wrapRangeEnd r)) with
    | error e =>
      simp [rangeLoop, hbp] at ha
      subst ha; rfl
    | ok bps =>
      simp [rangeLoop, hbp] at ha
      rcases ha with h1 | h2
      · subst h1; rfl
      · exact ih _ a h2

theorem rangeLoop_no_rangesCall (env : Env) (gs : Source) :
    ∀ (rs : List Range) (acc : Table) (a : Act),
      a ∈ (rangeLoop env gs rs acc).2 → a.isRangesCall = false := by
  intro rs
  induction rs with
  | nil => intro acc a ha; simp [rangeLoop] at ha
  | cons r rs ih =>
    intro acc a ha
    cases hbp : env.getBreakpointPositions gs (some (wrapRangeEnd r)) with
    | error e =>
      simp [rangeLoop, hbp] at ha
      subst ha; rfl
    | ok bps =>
      simp [rangeLoop, hbp] at ha
      rcases ha with h1 | h2
      · subst h1; rfl
      · exact ih _ a h2

theorem finishTail_no_rangesCall (env : Env) (st : StoreState)
    (s : SourceId) (gs : Source) (results : Table) (a : Act) :
    a ∈ (finishTail env st s gs results).2 → a.isRangesCall = false := by
  intro ha
  cases hgol : env.getOriginalLocations (convertToList results gs) with
  | error e =>
    simp [finishTail, hgol] at ha
    subst ha; rfl
  | ok origs =>
    simp [finishTail, hgol] at ha
    rcases ha with h1 | h2
    · subst h1; rfl
    · cases hsrc : st.sources s with
      | none => simp [publishStep, hsrc] at h2
      | some src =>
        simp [publishStep, hsrc] at h2
        subst h2; rfl

theorem rangeLoop_good (env : Env) (gs : Source) :
    ∀ (rs : List Range) (acc : Table) (c : Call) (e : Err),
      Act.call c ∈ (rangeLoop env gs rs acc).2 → callError env c = some e →
      (rangeLoop env gs rs acc).1 = Except.error e ∧
      (rangeLoop env gs rs acc).2.getLast? = some (Act.call c) := by
  intro rs
  induction rs with
  | nil => intro acc c e hc he; simp [rangeLoop] at hc
  | cons r rs ih =>
    intro acc c e hc he
    cases hbp : env.getBreakpointPositions gs (some (wrapRangeEnd r)) with
    | error e' =>
      simp only [rangeLoop, hbp] at hc ⊢
      simp at hc
      subst hc
      have : callError env (Call.getBreakpointPositions gs (some (wrapRangeEnd r))) =
          some e' := by simp [callError, hbp]
      rw [this] at he
      simp at he
      subst he
      exact ⟨rfl, rfl⟩
    | ok bps =>
      simp only [rangeLoop, hbp] at hc ⊢
      simp at hc
      rcases hc with h1 | h2
      · exfalso
        have : callError env (Call.getBreakpointPositions gs (some (wrapRangeEnd r))) =
            none := by simp [callError, hbp]
        rw [h1, this] at he
        exact Option.noConfusion he
      · have hres := ih (mergeTable acc bps) c e h2 he
        refine ⟨hres.1, ?_⟩
        rw [getLast?_cons_ne_nil _ _ (List.ne_nil_of_mem h2)]
        exact hres.2

theorem finishTail_good (env : Env) (st : StoreState) (s : SourceId)
    (gs : Source) (results : Table) (c : Call) (e : Err) :
    Act.call c ∈ (finishTail env st s gs results).2 →
    callError env c = some e →
    (finishTail env st s gs results).1 = Except.error e ∧
    (finishTail env st s gs results).2.getLast? = some (Act.call c) := by
  intro hc he
  cases hgol : env.getOriginalLocations (convertToList results gs) with
  | error e' =>
    simp only [finishTail, hgol] at hc ⊢
    simp at hc
    subst hc
    have : callError env (Call.getOriginalLocations (convertToList results gs)) =
        some e' := by simp [callError, hgol]
    rw [this] at he
    simp at he
    subst he
    exact ⟨rfl, rfl⟩
  | ok origs =>
    exfalso
    simp only [finishTail, hgol] at hc
    simp at hc
    rcases hc with h1 | h2
    · have : callError env (Call.getOriginalLocations (convertToList results gs)) =
          none := by simp [callError, hgol]
      rw [h1, this] at he
      exact Option.noConfusion he
    · cases hsrc : st.sources s with
      | none => simp [publishStep, hsrc] at h2
      | some src =>
        simp [publishStep, hsrc] at h2

theorem set_good (env : Env) (σ : Nat → StoreState) (s : SourceId)
    (c : Call) (e : Err) :
    Act.call c ∈ (_setBreakpointPositions env σ s).2 →
    callError env c = some e →
    (_setBreakpointPositions env σ s).1 = Except.error e ∧
    (_setBreakpointPositions env σ s).2.getLast? = some (Act.call c) := by
  intro hc he
  cases h0 : (σ 0).sources s with
  | none => simp [_setBreakpointPositions, h0] at hc
  | some src0 =>
    by_cases horig : env.isOriginalId s
    · cases hr : env.getGeneratedRangesForOriginal s src0.url true with
      | error e' =>
        simp only [_setBreakpointPositions, h0, horig, if_true, hr] at hc ⊢
        simp at hc
        subst hc
        have : callError env
            (Call.getGeneratedRangesForOriginal s src0.url true) = some e' := by
          simp [callError, hr]
        rw [this] at he
        simp at he
        subst he
        exact ⟨rfl, rfl⟩
      | ok ranges =>
        have hc0 : callError env
            (Call.getGeneratedRangesForOriginal s src0.url true) = none := by
          simp [callError, hr]
        cases hg : getSourceFromId (σ 1) (env.originalToGeneratedId s) with
        | error e' =>
          simp only [_setBreakpointPositions, h0, horig, if_true, hr, hg] at hc ⊢
          simp at hc
          subst hc
          rw [hc0] at he
          exact Option.noConfusion he
        | ok gsrc =>
          rcases hrl : rangeLoop env gsrc ranges [] with ⟨res, trl⟩
          cases res with
          | error e' =>
            simp only [_setBreakpointPositions, h0, horig, if_true, hr, hg,
              hrl] at hc ⊢
            simp at hc
            rcases hc with h1 | h2
            · exfalso
              rw [h1, hc0] at he
              exact Option.noConfusion he
            · have hgd := rangeLoop_good env gsrc ranges [] c e
                (by rw [hrl]; exact h2) he
              rw [hrl] at hgd
              simp at hgd
              refine ⟨?_, ?_⟩
              · have := hgd.1
                simp [this]
              · rw [getLast?_cons_ne_nil _ _ (List.ne_nil_of_mem h2)]
                exact hgd.2
          | ok results =>
            simp only [_setBreakpointPositions, h0, horig, if_true, hr, hg,
              hrl] at hc ⊢
            simp at hc
            rcases hc with h1 | h2
            · exfalso
              rw [h1, hc0] at he
              exact Option.noConfusion he
            · rcases h2 with h2 | h3
              · exfalso
                have hgd := rangeLoop_good env gsrc ranges [] c e
                  (by rw [hrl]; exact h2) he
                rw [hrl] at hgd
                exact Except.noConfusion hgd.1
              · have hft := finishTail_good env (σ 2) s gsrc results c e h3 he
                refine ⟨hft.1, ?_⟩
                have hne : (finishTail env (σ 2) s gsrc results).2 ≠ [] :=
                  List.ne_nil_of_mem h3
                rw [getLast?_cons_ne_nil _ _ (by simp [hne]),
                  getLast?_append_ne_nil _ _ hne]
                exact hft.2
    · cases hbp : env.getBreakpointPositions src0 none with
      | error e' =>
        simp only [_setBreakpointPositions, h0] at hc ⊢
        rw [if_neg horig] at hc ⊢
        simp only [hbp] at hc ⊢
        simp at hc
        subst hc
        have : callError env (Call.getBreakpointPositions src0 none) =
            some e' := by simp [callError, hbp]
        rw [this] at he
        simp at he
        subst he
        exact ⟨rfl, rfl⟩
      | ok results =>
        simp only [_setBreakpointPositions, h0] at hc ⊢
        rw [if_neg horig] at hc ⊢
        simp only [hbp] at hc ⊢
        simp at hc
        rcases hc with h1 | h2
        · exfalso
          have : callError env (Call.getBreakpointPositions src0 none) =
              none := by simp [callError, hbp]
          rw [h1, this] at he
          exact Option.noConfusion he
        · have hft := finishTail_good env (σ 1) s src0 results c e h2 he
          refine ⟨hft.1, ?_⟩
          rw [getLast?_cons_ne_nil _ _ (List.ne_nil_of_mem h2)]
          exact hft.2

theorem finishTail_shape (env : Env) (st : StoreState) (s : SourceId)
    (gs : Source) (results : Table) :
    callsOnly (finishTail env st s gs results).2 ∨
    ∃ pre src ps,
      (finishTail env st s gs results).2 = pre ++ [Act.dispatch src ps] ∧
      callsOnly pre ∧ (finishTail env st s gs results).1 = Except.ok () ∧
      st.sources s = some src := by
  cases hgol : env.getOriginalLocations (convertToList results gs) with
  | error e =>
    left
    simp only [finishTail, hgol]
    intro a ha
    simp at ha
    subst ha; rfl
  | ok origs =>
    cases hsrc : st.sources s with
    | none =>
      left
      simp only [finishTail, hgol, publishStep, hsrc]
      intro a ha
      simp at ha
      subst ha; rfl
    | some src =>
      right
      refine ⟨[Act.call (Call.getOriginalLocations (convertToList results gs))],
        src,
        filterByUniqLocation (mapLocationsPure origs (convertToList results gs)),
        ?_, ?_, ?_, rfl⟩
      · simp [finishTail, hgol, publishStep, hsrc]
      · intro a ha
        simp at ha
        subst ha; rfl
      · simp [finishTail, hgol, publishStep, hsrc]

theorem set_shape (env : Env) (σ : Nat → StoreState) (s : SourceId) :
    callsOnly (_setBreakpointPositions env σ s).2 ∨
    ∃ pre src ps,
      (_setBreakpointPositions env σ s).2 = pre ++ [Act.dispatch src ps] ∧
      callsOnly pre ∧ (_setBreakpointPositions env σ s).1 = Except.ok () ∧
      ∃ k, (σ k).sources s = some src := by
  cases h0 : (σ 0).sources s with
  | none =>
    left
    simp only [_setBreakpointPositions, h0]
    intro a ha
    simp at ha
  | some src0 =>
    by_cases horig : env.isOriginalId s
    · cases hr : env.getGeneratedRangesForOriginal s src0.url true with
      | error e =>
        left
        simp only [_setBreakpointPositions, h0, if_pos horig, hr]
        intro a ha
        simp at ha
        subst ha; rfl
      | ok ranges =>
        cases hg : getSourceFromId (σ 1) (env.originalToGeneratedId s) with
        | error e =>
          left
          simp only [_setBreakpointPositions, h0, if_pos horig, hr, hg]
          intro a ha
          simp at ha
          subst ha; rfl
        | ok gsrc =>
          rcases hrl : rangeLoop env gsrc ranges [] with ⟨res, trl⟩
          have htrl : callsOnly trl := by
            have h := rangeLoop_callsOnly env gsrc ranges []
            rw [hrl] at h
            exact h
          cases res with
          | error e =>
            left
            simp only [_setBreakpointPositions, h0, if_pos horig, hr, hg, hrl]
            intro a ha
            rcases List.mem_cons.mp ha with h1 | h2
            · subst h1; rfl
            · exact htrl a h2
          | ok results =>
            rcases finishTail_shape env (σ 2) s gsrc results with
              hcall | ⟨pre, src, ps, heq, hpre, hok, hsrc⟩
            · left
              simp only [_setBreakpointPositions, h0, if_pos horig, hr, hg, hrl]
              intro a ha
              rcases List.mem_cons.mp ha with h1 | h2
              · subst h1; rfl
              · rcases List.mem_append.mp h2 with h3 | h4
                · exact htrl a h3
                · exact hcall a h4
            · right
              refine ⟨Act.call (Call.getGeneratedRangesForOriginal s src0.url true) ::
                  (trl ++ pre), src, ps, ?_, ?_, ?_, 2, hsrc⟩
              · simp only [_setBreakpointPositions, h0, if_pos horig, hr, hg,
                  hrl, heq]
                simp
              · intro a ha
                rcases List.mem_cons.mp ha with h1 | h2
                · subst h1; rfl
                · rcases List.mem_append.mp h2 with h3 | h4
                  · exact htrl a h3
                  · exact hpre a h4
              · simp only [_setBreakpointPositions, h0, if_pos horig, hr, hg,
                  hrl, hok]
    · cases hbp : env.getBreakpointPositions src0 none with
      | error e =>
        left
        simp only [_setBreakpointPositions, h0]
        rw [if_neg horig]
        simp only [hbp]
        intro a ha
        simp at ha
        subst ha; rfl
      | ok results =>
        rcases finishTail_shape env (σ 1) s src0 results with
          hcall | ⟨pre, src, ps, heq, hpre, hok, hsrc⟩
        · left
          simp only [_setBreakpointPositions, h0]
          rw [if_neg horig]
          simp only [hbp]
          intro a ha
          rcases List.mem_cons.mp ha with h1 | h2
          · subst h1; rfl
          · exact hcall a h2
        · right
          refine ⟨Act.call (Call.getBreakpointPositions src0 none) :: pre,
            src, ps, ?_, ?_, ?_, 1, hsrc⟩
          · simp only [_setBreakpointPositions, h0]
            rw [if_neg horig]
            simp only [hbp, heq]
            simp
          · intro a ha
            rcases List.mem_cons.mp ha with h1 | h2
            · subst h1; rfl
            · exact hpre a h2
          · simp only [_setBreakpointPositions, h0]
            rw [if_neg horig]
            simp only [hbp, hok]

theorem set_head_call (env : Env) (σ : Nat → StoreState) (s : SourceId)
    (src : Source) (h0 : (σ 0).sources s = some src) :
    ∃ c rest, (_setBreakpointPositions env σ s).2 = Act.call c :: rest := by
  by_cases horig : env.isOriginalId s
  · cases hr : env.getGeneratedRangesForOriginal s src.url true with
    | error e =>
      exact ⟨Call.getGeneratedRangesForOriginal s src.url true, [],
        by simp only [_setBreakpointPositions, h0, if_pos horig, hr]⟩
    | ok ranges =>
      cases hg : getSourceFromId (σ 1) (env.originalToGeneratedId s) with
      | error e =>
        exact ⟨Call.getGeneratedRangesForOriginal s src.url true, [],
          by simp only [_setBreakpointPositions, h0, if_pos horig, hr, hg]⟩
      | ok gsrc =>
        rcases hrl : rangeLoop env gsrc ranges [] with ⟨res, trl⟩
        cases res with
        | error e =>
          exact ⟨Call.getGeneratedRangesForOriginal s src.url true, trl,
            by simp only [_setBreakpointPositions, h0, if_pos horig, hr, hg, hrl]⟩
        | ok results =>
          exact ⟨Call.getGeneratedRangesForOriginal s src.url true,
            trl ++ (finishTail env (σ 2) s gsrc results).2,
            by simp only [_setBreakpointPositions, h0, if_pos horig, hr, hg, hrl]⟩
  · cases hbp : env.getBreakpointPositions src none with
    | error e =>
      refine ⟨Call.getBreakpointPositions src none, [], ?_⟩
      simp only [_setBreakpointPositions, h0]
      rw [if_neg horig]
      simp only [hbp]
    | ok results =>
      refine ⟨Call.getBreakpointPositions src none,
        (finishTail env (σ 1) s src results).2, ?_⟩
      simp only [_setBreakpointPositions, h0]
      rw [if_neg horig]
      simp only [hbp]

/-- C9 witness: both no-op paths at the empty store. -/
theorem c9_stale_source_noop_witness :
    _setBreakpointPositions envW (fun _ => storeA) "x" = (Except.ok (), []) ∧
    publishStep storeA "x" [] = (Except.ok (), []) :=
  ⟨(c9_stale_source_noop envW (fun _ => storeA) "x" storeA []).1 rfl,
   (c9_stale_source_noop envW (fun _ => storeA) "x" storeA []).2 rfl⟩

/-- C2: a caller that finds a cached position set for its id returns
that set unchanged and changes nothing else — no collaborator call is
logged, no task is spawned, and no registration is made. -/
theorem c2_cache_first (env : Env) (sys : Sys) (i : Nat) (s : SourceId)
    (ps : List MappedLocation)
    (hc : sys.callers.get? i = some ⟨s, CallerPhase.start⟩)
    (hp : sys.store.positions s = some ps) :
    step env sys (Choice.caller i) =
      { sys with callers :=
          sys.callers.set i ⟨s, CallerPhase.done (Except.ok (some ps))⟩ } := by
  simp only [step, callerStep, hc, hp]

/-- C2 witness: a concrete cache hit for `"g"`. -/
theorem c2_cache_first_witness :
    step envW (initSys storeC ["g"]) (Choice.caller 0) =
      { initSys storeC ["g"] with callers :=
          (initSys storeC ["g"]).callers.set 0 ⟨"g", CallerPhase.done
            (Except.ok (some [⟨some locO1, some locG1⟩]))⟩ } :=
  c2_cache_first envW (initSys storeC ["g"]) 0 "g"
    [⟨some locO1, some locG1⟩] (by decide) (by decide)

/-- C3: a failing collaborator call aborts the whole resolution task —
the task's outcome is exactly that failure, its trace contains no
`ADD_BREAKPOINT_POSITIONS` write, and the failing call is the last
event issued; and a caller awaiting a task that settled with a failure
observes that same failure. -/
theorem c3_failure_aborts_task (env : Env) (σ : Nat → StoreState)
    (s : SourceId) :
    (∀ c e, Act.call c ∈ (_setBreakpointPositions env σ s).2 →
      callError env c = some e →
      (_setBreakpointPositions env σ s).1 = Except.error e ∧
      (∀ src ps, Act.dispatch src ps ∉ (_setBreakpointPositions env σ s).2) ∧
      (_setBreakpointPositions env σ s).2.getLast? = some (Act.call c)) ∧
    (∀ (sys : Sys) (i tid : Nat) (s' s'' : SourceId) (e : Err),
      sys.callers.get? i = some ⟨s', CallerPhase.waiting tid⟩ →
      sys.tasks tid = some (TaskSlot.finished s'' (Except.error e)) →
      callerStep env sys i =
        { sys with callers :=
            sys.callers.set i ⟨s', CallerPhase.done (Except.error e)⟩ }) := by
  constructor
  · intro c e hc he
    have hgd := set_good env σ s c e hc he
    refine ⟨hgd.1, ?_, hgd.2⟩
    intro src ps hmem
    rcases set_shape env σ s with hcall | ⟨pre, src', ps', heq, hpre, hok, _⟩
    · have := hcall _ hmem
      simp [Act.isCall] at this
    · rw [hok] at hgd
      exact Except.noConfusion hgd.1
  · intro sys i tid s' s'' e hc ht
    simp only [callerStep, hc, ht, resumeWaiter]

/-- C3 witness: a failing client fetch makes the task fail with the
same error, and the failing fetch is the last event of its trace. -/
theorem c3_failure_aborts_task_witness :
    (_setBreakpointPositions envF (fun _ => storeW) "g").1 =
      Except.error "boom" ∧
    (_setBreakpointPositions envF (fun _ => storeW) "g").2.getLast? =
      some (Act.call (Call.getBreakpointPositions srcG none)) :=
  ⟨((c3_failure_aborts_task envF (fun _ => storeW) "g").1
      (Call.getBreakpointPositions srcG none) "boom"
      (by decide) (by decide)).1,
   ((c3_failure_aborts_task envF (fun _ => storeW) "g").1
      (Call.getBreakpointPositions srcG none) "boom"
      (by decide) (by decide)).2.2⟩

/-- C6: on each of the task's exit paths the coalescing registration is
removed in the very step that settles the task (with or without a final
publish), no waiter can be resumed while the task is still running, and
a later call that finds the id uncached and unregistered registers a
fresh task whose first event is a new collaborator fetch. -/
theorem c6_cleanup_on_every_exit (env : Env) :
    (∀ (sys : Sys) (tid : Nat) (s : SourceId) (o : Except Err Unit),
      sys.tasks tid = some (TaskSlot.running s [] o) →
      taskStep sys tid =
        { sys with
          tasks := fun t =>
            if t = tid then some (TaskSlot.finished s o) else sys.tasks t
          requests := fun id => if id = s then none else sys.requests id }) ∧
    (∀ (sys : Sys) (tid : Nat) (s : SourceId) (o : Except Err Unit)
        (src : Source) (ps : List MappedLocation),
      sys.tasks tid = some (TaskSlot.running s [Act.dispatch src ps] o) →
      taskStep sys tid =
        { sys with
          store := applyDispatch sys.store src ps
          tasks := fun t =>
            if t = tid then some (TaskSlot.finished s o) else sys.tasks t
          requests := fun id => if id = s then none else sys.requests id
          log := sys.log ++ [Act.dispatch src ps] }) ∧
    (∀ (sys : Sys) (i : Nat) (s s' : SourceId) (tid : Nat) (p : List Act)
        (o : Except Err Unit),
      sys.callers.get? i = some ⟨s, CallerPhase.waiting tid⟩ →
      sys.tasks tid = some (TaskSlot.running s' p o) →
      callerStep env sys i = sys) ∧
    (∀ (sys : Sys) (i : Nat) (s : SourceId) (src : Source),
      sys.callers.get? i = some ⟨s, CallerPhase.start⟩ →
      sys.store.positions s = none →
      sys.requests s = none →
      sys.store.sources s = some src →
      callerStep env sys i =
        { sys with
          tasks := fun t =>
            if t = sys.nextTid then
              some (TaskSlot.running s
                (_setBreakpointPositions env (fun _ => sys.store) s).2
                (_setBreakpointPositions env (fun _ => sys.store) s).1)
            else sys.tasks t
          requests := fun id =>
            if id = s then some sys.nextTid else sys.requests id
          nextTid := sys.nextTid + 1
          callers := sys.callers.set i ⟨s, CallerPhase.waiting sys.nextTid⟩ } ∧
        ∃ c rest, (_setBreakpointPositions env (fun _ => sys.store) s).2 =
          Act.call c :: rest) := by
  refine ⟨?_, ?_, ?_, ?_⟩
  · intro sys tid s o ht
    simp only [taskStep, ht]
  · intro sys tid s o src ps ht
    simp only [taskStep, ht, List.isEmpty_nil, if_true]
  · intro sys i s s' tid p o hc ht
    simp only [callerStep, hc, ht]
  · intro sys i s src hc hp hr hs
    refine ⟨?_, set_head_call env (fun _ => sys.store) s src hs⟩
    simp only [callerStep, hc, hp, hr]

/-- C6 witness: a concrete settling step removes the registration, and
a concrete later call re-registers and issues a fresh fetch. -/
theorem c6_cleanup_on_every_exit_witness :
    taskStep sysT 0 =
      { sysT with
        tasks := fun t =>
          if t = 0 then some (TaskSlot.finished "g" (Except.ok ()))
          else sysT.tasks t
        requests := fun id => if id = "g" then none else sysT.requests id } ∧
    callerStep envW (initSys storeW ["g"]) 0 =
      { initSys storeW ["g"] with
        tasks := fun t =>
          if t = 0 then
            some (TaskSlot.running "g"
              (_setBreakpointPositions envW (fun _ => storeW) "g").2
              (_setBreakpointPositions envW (fun _ => storeW) "g").1)
          else (initSys storeW ["g"]).tasks t
        requests := fun id =>
          if id = "g" then some 0 else (initSys storeW ["g"]).requests id
        nextTid := 1
        callers := (initSys storeW ["g"]).callers.set 0
          ⟨"g", CallerPhase.waiting 0⟩ } :=
  ⟨(c6_cleanup_on_every_exit envW).1 sysT 0 "g" (Except.ok ()) (by decide),
   ((c6_cleanup_on_every_exit envW).2.2.2 (initSys storeW ["g"]) 0 "g" srcG
      (by decide) (by decide) (by decide) (by decide)).1⟩

/-- C10 counterexample: for the original source `"o"` whose own record
has url `original.js` while its generated source's record has url
`bundle.js`, the single `getGeneratedRangesForOriginal` call passes
`original.js` — the url of the record fetched for the original id — and
not the generated source's url. -/
theorem c10_generated_url_counterexample :
    (_setBreakpointPositions envO (fun _ => storeO) "o").2.filter
        Act.isRangesCall =
      [Act.call (Call.getGeneratedRangesForOriginal "o" "original.js" true)] ∧
    storeO.sources (envO.originalToGeneratedId "o") = some srcGB ∧
    srcGB.url = "bundle.js" ∧ "original.js" ≠ "bundle.js" := by
  refine ⟨by decide, by decide, rfl, by decide⟩

/-- C10 (amended): for every original source whose record is present,
the pipeline issues exactly one `getGeneratedRangesForOriginal` call, as
its first event, passing the original source id, the url of the store
record fetched for that original id (the code's `generatedSource`
variable still holds the original record at that point), and
`coverFully = true`. -/
theorem c10_ranges_call_args (env : Env) (σ : Nat → StoreState)
    (s : SourceId) (src : Source) (h0 : (σ 0).sources s = some src)
    (horig : env.isOriginalId s = true) :
    (_setBreakpointPositions env σ s).2.filter Act.isRangesCall =
      [Act.call (Call.getGeneratedRangesForOriginal s src.url true)] ∧
    (_setBreakpointPositions env σ s).2.head? =
      some (Act.call (Call.getGeneratedRangesForOriginal s src.url true)) := by
  cases hr : env.getGeneratedRangesForOriginal s src.url true with
  | error e =>
    constructor
    · simp only [_setBreakpointPositions, h0, if_pos horig, hr]
      rfl
    · simp only [_setBreakpointPositions, h0, if_pos horig, hr]
      rfl
  | ok ranges =>
    cases hg : getSourceFromId (σ 1) (env.originalToGeneratedId s) with
    | error e =>
      constructor
      · simp only [_setBreakpointPositions, h0, if_pos horig, hr, hg]
        rfl
      · simp only [_setBreakpointPositions, h0, if_pos horig, hr, hg]
        rfl
    | ok gsrc =>
      rcases hrl : rangeLoop env gsrc ranges [] with ⟨res, trl⟩
      have htrl : ∀ a, a ∈ trl → a.isRangesCall = false := by
        intro a ha
        have h := rangeLoop_no_rangesCall env gsrc ranges []
        rw [hrl] at h
        exact h a ha
      cases res with
      | error e =>
        constructor
        · simp only [_setBreakpointPositions, h0, if_pos horig, hr, hg, hrl]
          rw [List.filter_cons_of_pos (by rfl), filter_nil_of_false _ trl htrl]
        · simp only [_setBreakpointPositions, h0, if_pos horig, hr, hg, hrl]
          rfl
      | ok results =>
        constructor
        · simp only [_setBreakpointPositions, h0, if_pos horig, hr, hg, hrl]
          rw [List.filter_cons_of_pos (by rfl), filter_nil_of_false _ _ ?_]
          intro a ha
          rcases List.mem_append.mp ha with h1 | h2
          · exact htrl a h1
          · exact finishTail_no_rangesCall env (σ 2) s gsrc results a h2
        · simp only [_setBreakpointPositions, h0, if_pos horig, hr, hg, hrl]
          rfl

/-- C10 witness: the amended statement at the concrete fixture. -/
theorem c10_ranges_call_args_witness :
    (_setBreakpointPositions envO (fun _ => storeO) "o").2.filter
        Act.isRangesCall =
      [Act.call (Call.getGeneratedRangesForOriginal "o" srcO.url true)] :=
  (c10_ranges_call_args envO (fun _ => storeO) "o" srcO
    (by decide) (by decide)).1

theorem set_sources_only (env : Env) (σ σ' : Nat → StoreState) (s : SourceId)
    (h : ∀ k, (σ k).sources = (σ' k).sources) :
    _setBreakpointPositions env σ s = _setBreakpointPositions env σ' s := by
  simp only [_setBreakpointPositions, getSourceFromId, finishTail, publishStep, h]

theorem pubPos_of_callsOnly (env : Env) (st0 : StoreState) (s : SourceId)
    (h : callsOnly (taskSpec env st0 s).2) : pubPos env st0 s = none := by
  unfold pubPos
  cases hl : (taskSpec env st0 s).2.getLast? with
  | none => rfl
  | some a =>
    cases a with
    | call c => rfl
    | dispatch src ps =>
      have ha := h _ (List.mem_of_mem_getLast? hl)
      simp [Act.isCall] at ha

theorem pubPos_of_dispatch_end (env : Env) (st0 : StoreState) (s : SourceId)
    (pre : List Act) (src : Source) (ps : List MappedLocation)
    (heq : (taskSpec env st0 s).2 = pre ++ [Act.dispatch src ps]) :
    pubPos env st0 s = some ps := by
  unfold pubPos
  rw [heq, getLast?_append_ne_nil _ _ (by simp)]
  rfl

theorem pubPos_of_getLast_call (env : Env) (st0 : StoreState) (s : SourceId)
    (c : Call) (hl : (taskSpec env st0 s).2.getLast? = some (Act.call c)) :
    pubPos env st0 s = none := by
  unfold pubPos
  rw [hl]

theorem pubPos_of_nil (env : Env) (st0 : StoreState) (s : SourceId)
    (hl : (taskSpec env st0 s).2 = []) : pubPos env st0 s = none := by
  unfold pubPos
  rw [hl]
  rfl

theorem taskSpec_shape (env : Env) (st0 : StoreState) (s : SourceId) :
    (callsOnly (taskSpec env st0 s).2 ∧ pubPos env st0 s = none) ∨
    (∃ pre src ps, (taskSpec env st0 s).2 = pre ++ [Act.dispatch src ps] ∧
      callsOnly pre ∧ (taskSpec env st0 s).1 = Except.ok () ∧
      st0.sources s = some src ∧ pubPos env st0 s = some ps) := by
  rcases set_shape env (fun _ => st0) s with hcall |
    ⟨pre, src, ps, heq, hpre, hok, k, hk⟩
  · exact Or.inl ⟨hcall, pubPos_of_callsOnly env st0 s hcall⟩
  · exact Or.inr ⟨pre, src, ps, heq, hpre, hok, hk,
      pubPos_of_dispatch_end env st0 s pre src ps heq⟩

theorem suffix_getLast? {α : Type} (p l : List α) (hs : p <:+ l)
    (hne : p ≠ []) : p.getLast? = l.getLast? := by
  rcases hs with ⟨q, hq⟩
  rw [← hq, getLast?_append_ne_nil _ _ hne]

theorem dispatch_suffix_end (pre : List Act) (d : Act)
    (src : Source) (ps : List MappedLocation) (rest : List Act)
    (hpre : callsOnly pre)
    (hs : (Act.dispatch src ps :: rest) <:+ pre ++ [d]) :
    Act.dispatch src ps = d ∧ rest = [] := by
  induction pre with
  | nil =>
    simp only [List.nil_append] at hs
    rcases List.suffix_cons_iff.mp hs with h1 | h2
    · injection h1 with h1a h1b
      exact ⟨h1a.symm ▸ rfl, h1b⟩
    · rw [List.suffix_nil] at h2
      exact absurd h2 (List.cons_ne_nil _ _)
  | cons a pre ih =>
    rw [List.cons_append] at hs
    rcases List.suffix_cons_iff.mp hs with h1 | h2
    · exfalso
      have ha : a.isCall = true := hpre a (List.mem_cons_self a pre)
      injection h1 with h1a h1b
      rw [← h1a] at ha
      simp [Act.isCall] at ha
    · exact ih (fun x hx => hpre x (List.mem_cons_of_mem a hx)) h2

theorem inv_taskStep (env : Env) (st0 : StoreState) (sys : Sys) (tid : Nat)
    (hwf : WFStore st0) (hinv : Inv env st0 sys) :
    Inv env st0 (taskStep sys tid) := by
  cases ht : sys.tasks tid with
  | none => simpa [taskStep, ht] using hinv
  | some slot =>
    cases slot with
    | finished s o => simpa [taskStep, ht] using hinv
    | running s pending o =>
      have hreg : sys.requests s = some tid := hinv.runReg tid s pending o ht
      have hstale : st0.positions s = none := hinv.runStale tid s pending o ht
      have huniq : ∀ tid' p' o',
          sys.tasks tid' = some (TaskSlot.running s p' o') → tid' = tid := by
        intro tid' p' o' hrun'
        have h2 := hinv.runReg tid' s p' o' hrun'
        rw [hreg] at h2
        exact (Option.some_inj.mp h2).symm
      have hposn : sys.store.positions s = none := by
        rcases hinv.posPub s with h1 | ⟨h1, h2, h3, h4⟩
        · rw [h1, hstale]
        · exact absurd ht (h4 tid pending o)
      cases pending with
      | nil =>
        have hpub : pubPos env st0 s = none := hinv.runNilPub tid s [] o ht rfl
        have hstep : taskStep sys tid =
            { sys with
              tasks := fun t =>
                if t = tid then some (TaskSlot.finished s o) else sys.tasks t
              requests := fun id => if id = s then none else sys.requests id } := by
          simp only [taskStep, ht]
        rw [hstep]
        refine ⟨hinv.srcEq, ?_, ?_, ?_, ?_, ?_, ?_, ?_, ?_, ?_,
          hinv.doneOut, hinv.waitLt, ?_, ?_⟩
        · intro s' tid' hreq
          dsimp only at hreq
          by_cases hs' : s' = s
          · rw [if_pos hs'] at hreq
            exact Option.noConfusion hreq
          · rw [if_neg hs'] at hreq
            obtain ⟨p', o', hrun⟩ := hinv.reqTask s' tid' hreq
            have htid : tid' ≠ tid := by
              intro hE
              subst hE
              rw [ht] at hrun
              injection hrun with h
              injection h with hA hB hC
              exact hs' hA.symm
            exact ⟨p', o', by dsimp only; rw [if_neg htid]; exact hrun⟩
        · intro tid' s' p' o' hrun
          dsimp only at hrun ⊢
          by_cases htid : tid' = tid
          · rw [if_pos htid] at hrun
            injection hrun with h
            exact TaskSlot.noConfusion h
          · rw [if_neg htid] at hrun
            have h2 := hinv.runReg tid' s' p' o' hrun
            have hs' : s' ≠ s := by
              intro hE
              subst hE
              exact htid (huniq tid' p' o' hrun)
            rw [if_neg hs']
            exact h2
        · intro tid' s' p' o' hrun
          dsimp only at hrun
          by_cases htid : tid' = tid
          · rw [if_pos htid] at hrun
            injection hrun with h
            exact TaskSlot.noConfusion h
          · rw [if_neg htid] at hrun
            exact hinv.runOutcome tid' s' p' o' hrun
        · intro tid' s' p' o' hrun
          dsimp only at hrun
          by_cases htid : tid' = tid
          · rw [if_pos htid] at hrun
            injection hrun with h
            exact TaskSlot.noConfusion h
          · rw [if_neg htid] at hrun
            exact hinv.runPending tid' s' p' o' hrun
        · intro tid' s' p' o' hrun hp
          dsimp only at hrun
          by_cases htid : tid' = tid
          · rw [if_pos htid] at hrun
            injection hrun with h
            exact TaskSlot.noConfusion h
          · rw [if_neg htid] at hrun
            exact hinv.runNilPub tid' s' p' o' hrun hp
        · intro tid' s' p' o' hrun
          dsimp only at hrun
          by_cases htid : tid' = tid
          · rw [if_pos htid] at hrun
            injection hrun with h
            exact TaskSlot.noConfusion h
          · rw [if_neg htid] at hrun
            exact hinv.runStale tid' s' p' o' hrun
        · intro tid' s' o' hfin
          dsimp only at hfin
          by_cases htid : tid' = tid
          · rw [if_pos htid] at hfin
            injection hfin with h
            injection h with hA hB
            subst hA
            rw [← hB]
            exact hinv.runOutcome tid s [] o ht
          · rw [if_neg htid] at hfin
            exact hinv.finOutcome tid' s' o' hfin
        · intro tid' s' o' hfin
          dsimp only at hfin
          by_cases htid : tid' = tid
          · rw [if_pos htid] at hfin
            injection hfin with h
            injection h with hA hB
            subst hA
            exact ⟨by rw [hposn, hpub], hstale⟩
          · rw [if_neg htid] at hfin
            exact hinv.finPos tid' s' o' hfin
        · intro s'
          rcases hinv.posPub s' with h1 | ⟨h1, h2, h3, h4⟩
          · exact Or.inl h1
          · refine Or.inr ⟨h1, h2, h3, ?_⟩
            intro tid' p' o' hrun
            dsimp only at hrun
            by_cases htid : tid' = tid
            · rw [if_pos htid] at hrun
              injection hrun with h
              exact TaskSlot.noConfusion h
            · rw [if_neg htid] at hrun
              exact h4 tid' p' o' hrun
        · intro j s' tid' hj slot' hslot'
          dsimp only at hslot'
          by_cases htid : tid' = tid
          · rw [if_pos htid] at hslot'
            injection hslot' with h
            subst htid
            have := hinv.waitSid j s' tid' hj (TaskSlot.running s [] o) ht
            rw [← h]
            exact this
          · rw [if_neg htid] at hslot'
            exact hinv.waitSid j s' tid' hj slot' hslot'
        · intro tid' hge
          dsimp only at hge ⊢
          have hlt : tid < sys.nextTid := by
            by_contra hcon
            push_neg at hcon
            rw [hinv.fresh tid hcon] at ht
            exact Option.noConfusion ht
          rw [if_neg (by omega)]
          exact hinv.fresh tid' hge
      | cons a rest =>
        cases a with
        | call c =>
          have hstep : taskStep sys tid =
              { sys with
                tasks := fun t =>
                  if t = tid then some (TaskSlot.running s rest o)
                  else sys.tasks t
                log := sys.log ++ [Act.call c] } := by
            simp only [taskStep, ht]
          rw [hstep]
          have hpend : (Act.call c :: rest) <:+ (taskSpec env st0 s).2 :=
            hinv.runPending tid s (Act.call c :: rest) o ht
          refine ⟨hinv.srcEq, ?_, ?_, ?_, ?_, ?_, ?_, ?_, ?_, ?_,
            hinv.doneOut, hinv.waitLt, ?_, ?_⟩
          · intro s' tid' hreq
            obtain ⟨p', o', hrun⟩ := hinv.reqTask s' tid' hreq
            dsimp only
            by_cases htid : tid' = tid
            · subst htid
              rw [ht] at hrun
              injection hrun with h
              injection h with hA hB hC
              rw [if_pos rfl]
              exact ⟨rest, o, by rw [hA]⟩
            · rw [if_neg htid]
              exact ⟨p', o', hrun⟩
          · intro tid' s' p' o' hrun
            dsimp only at hrun
            by_cases htid : tid' = tid
            · rw [if_pos htid] at hrun
              injection hrun with h
              injection h with hA hB hC
              subst htid
              rw [← hA]
              exact hreg
            · rw [if_neg htid] at hrun
              exact hinv.runReg tid' s' p' o' hrun
          · intro tid' s' p' o' hrun
            dsimp only at hrun
            by_cases htid : tid' = tid
            · rw [if_pos htid] at hrun
              injection hrun with h
              injection h with hA hB hC
              rw [← hA, ← hC]
              exact hinv.runOutcome tid s (Act.call c :: rest) o ht
            · rw [if_neg htid] at hrun
              exact hinv.runOutcome tid' s' p' o' hrun
          · intro tid' s' p' o' hrun
            dsimp only at hrun
            by_cases htid : tid' = tid
            · rw [if_pos htid] at hrun
              injection hrun with h
              injection h with hA hB hC
              rw [← hA, ← hB]
              exact (List.suffix_cons (Act.call c) rest).trans hpend
            · rw [if_neg htid] at hrun
              exact hinv.runPending tid' s' p' o' hrun
          · intro tid' s' p' o' hrun hp
            dsimp only at hrun
            by_cases htid : tid' = tid
            · rw [if_pos htid] at hrun
              injection hrun with h
              injection h with hA hB hC
              subst hA
              rw [hp] at hB
              have hone : (Act.call c :: ([] : List Act)) <:+
                  (taskSpec env st0 s).2 := by
                rw [hB] at hpend
                exact hpend
              have hl := suffix_getLast? _ _ hone (by simp)
              simp only [List.getLast?_singleton] at hl
              exact pubPos_of_getLast_call env st0 s c hl.symm
            · rw [if_neg htid] at hrun
              exact hinv.runNilPub tid' s' p' o' hrun hp
          · intro tid' s' p' o' hrun
            dsimp only at hrun
            by_cases htid : tid' = tid
            · rw [if_pos htid] at hrun
              injection hrun with h
              injection h with hA hB hC
              rw [← hA]
              exact hstale
            · rw [if_neg htid] at hrun
              exact hinv.runStale tid' s' p' o' hrun
          · intro tid' s' o' hfin
            dsimp only at hfin
            by_cases htid : tid' = tid
            · rw [if_pos htid] at hfin
              injection hfin with h
              exact TaskSlot.noConfusion h
            · rw [if_neg htid] at hfin
              exact hinv.finOutcome tid' s' o' hfin
          · intro tid' s' o' hfin
            dsimp only at hfin
            by_cases htid : tid' = tid
            · rw [if_pos htid] at hfin
              injection hfin with h
              exact TaskSlot.noConfusion h
            · rw [if_neg htid] at hfin
              exact hinv.finPos tid' s' o' hfin
          · intro s'
            rcases hinv.posPub s' with h1 | ⟨h1, h2, h3, h4⟩
            · exact Or.inl h1
            · refine Or.inr ⟨h1, h2, h3, ?_⟩
              intro tid' p' o' hrun
              dsimp only at hrun
              by_cases htid : tid' = tid
              · rw [if_pos htid] at hrun
                injection hrun with h
                injection h with hA hB hC
                subst hA
                exact h4 tid (Act.call c :: rest) o ht
              · rw [if_neg htid] at hrun
                exact h4 tid' p' o' hrun
          · intro j s' tid' hj slot' hslot'
            dsimp only at hslot'
            by_cases htid : tid' = tid
            · rw [if_pos htid] at hslot'
              injection hslot' with h
              subst htid
              have := hinv.waitSid j s' tid' hj
                (TaskSlot.running s (Act.call c :: rest) o) ht
              rw [← h]
              exact this
            · rw [if_neg htid] at hslot'
              exact hinv.waitSid j s' tid' hj slot' hslot'
          · intro tid' hge
            dsimp only at hge ⊢
            have hlt : tid < sys.nextTid := by
              by_contra hcon
              push_neg at hcon
              rw [hinv.fresh tid hcon] at ht
              exact Option.noConfusion ht
            rw [if_neg (by omega)]
            exact hinv.fresh tid' hge
        | dispatch src ps =>
          have hpend : (Act.dispatch src ps :: rest) <:+ (taskSpec env st0 s).2 :=
            hinv.runPending tid s (Act.dispatch src ps :: rest) o ht
          rcases taskSpec_shape env st0 s with ⟨hcall, _⟩ |
            ⟨pre, src', ps', heq, hpre, hok, hsrc0, hpub⟩
          · exfalso
            have hmem : Act.dispatch src ps ∈ (taskSpec env st0 s).2 :=
              hpend.subset (List.mem_cons_self _ _)
            have := hcall _ hmem
            simp [Act.isCall] at this
          · have hde : Act.dispatch src ps = Act.dispatch src' ps' ∧
                rest = [] := by
              rw [heq] at hpend
              exact dispatch_suffix_end pre _ src ps rest hpre hpend
            have hsrc : src = src' := by
              injection hde.1 with hA hB
            have hpsv : ps = ps' := by
              injection hde.1 with hA hB
            subst hsrc
            subst hpsv
            have hrest : rest = [] := hde.2
            subst hrest
            have hid : src.id = s := hwf s src hsrc0
            have hstep : taskStep sys tid =
                { sys with
                  store := applyDispatch sys.store src ps
                  tasks := fun t =>
                    if t = tid then some (TaskSlot.finished s o)
                    else sys.tasks t
                  requests := fun id => if id = s then none
                    else sys.requests id
                  log := sys.log ++ [Act.dispatch src ps] } := by
              simp only [taskStep, ht, List.isEmpty_nil, if_true]
            rw [hstep]
            have hposup : ∀ s', (applyDispatch sys.store src ps).positions s' =
                if s' = s then some ps else sys.store.positions s' := by
              intro s'
              simp only [applyDispatch, hid]
            refine ⟨hinv.srcEq, ?_, ?_, ?_, ?_, ?_, ?_, ?_, ?_, ?_,
              hinv.doneOut, hinv.waitLt, ?_, ?_⟩
            · intro s' tid' hreq
              dsimp only at hreq
              by_cases hs' : s' = s
              · rw [if_pos hs'] at hreq
                exact Option.noConfusion hreq
              · rw [if_neg hs'] at hreq
                obtain ⟨p', o', hrun⟩ := hinv.reqTask s' tid' hreq
                have htid : tid' ≠ tid := by
                  intro hE
                  subst hE
                  rw [ht] at hrun
                  injection hrun with h
                  injection h with hA hB hC
                  exact hs' hA.symm
                exact ⟨p', o', by dsimp only; rw [if_neg htid]; exact hrun⟩
            · intro tid' s' p' o' hrun
              dsimp only at hrun ⊢
              by_cases htid : tid' = tid
              · rw [if_pos htid] at hrun
                injection hrun with h
                exact TaskSlot.noConfusion h
              · rw [if_neg htid] at hrun
                have h2 := hinv.runReg tid' s' p' o' hrun
                have hs' : s' ≠ s := by
                  intro hE
                  subst hE
                  exact htid (huniq tid' p' o' hrun)
                rw [if_neg hs']
                exact h2
            · intro tid' s' p' o' hrun
              dsimp only at hrun
              by_cases htid : tid' = tid
              · rw [if_pos htid] at hrun
                injection hrun with h
                exact TaskSlot.noConfusion h
              · rw [if_neg htid] at hrun
                exact hinv.runOutcome tid' s' p' o' hrun
            · intro tid' s' p' o' hrun
              dsimp only at hrun
              by_cases htid : tid' = tid
              · rw [if_pos htid] at hrun
                injection hrun with h
                exact TaskSlot.noConfusion h
              · rw [if_neg htid] at hrun
                exact hinv.runPending tid' s' p' o' hrun
            · intro tid' s' p' o' hrun hp
              dsimp only at hrun
              by_cases htid : tid' = tid
              · rw [if_pos htid] at hrun
                injection hrun with h
                exact TaskSlot.noConfusion h
              · rw [if_neg htid] at hrun
                exact hinv.runNilPub tid' s' p' o' hrun hp
            · intro tid' s' p' o' hrun
              dsimp only at hrun
              by_cases htid : tid' = tid
              · rw [if_pos htid] at hrun
                injection hrun with h
                exact TaskSlot.noConfusion h
              · rw [if_neg htid] at hrun
                exact hinv.runStale tid' s' p' o' hrun
            · intro tid' s' o' hfin
              dsimp only at hfin
              by_cases htid : tid' = tid
              · rw [if_pos htid] at hfin
                injection hfin with h
                injection h with hA hB
                subst hA
                rw [← hB]
                exact hinv.runOutcome tid s (Act.dispatch src ps :: []) o ht
              · rw [if_neg htid] at hfin
                exact hinv.finOutcome tid' s' o' hfin
            · intro tid' s' o' hfin
              dsimp only at hfin
              by_cases htid : tid' = tid
              · rw [if_pos htid] at hfin
                injection hfin with h
                injection h with hA hB
                subst hA
                refine ⟨?_, hstale⟩
                rw [hposup s, if_pos rfl, hpub]
              · rw [if_neg htid] at hfin
                have hold := hinv.finPos tid' s' o' hfin
                by_cases hs' : s' = s
                · exfalso
                  subst hs'
                  rw [hposn] at hold
                  rw [hpub] at hold
                  exact Option.noConfusion hold.1
                · rw [hposup s', if_neg hs']
                  exact hold
            · intro s'
              by_cases hs' : s' = s
              · subst hs'
                refine Or.inr ⟨hstale, ?_, ?_, ?_⟩
                · rw [hposup s', if_pos rfl, hpub]
                · rw [hpub]
                  exact Option.noConfusion
                · intro tid' p' o' hrun
                  dsimp only at hrun
                  by_cases htid : tid' = tid
                  · rw [if_pos htid] at hrun
                    injection hrun with h
                    exact TaskSlot.noConfusion h
                  · rw [if_neg htid] at hrun
                    exact htid (huniq tid' p' o' hrun)
              · rcases hinv.posPub s' with h1 | ⟨h1, h2, h3, h4⟩
                · refine Or.inl ?_
                  rw [hposup s', if_neg hs']
                  exact h1
                · refine Or.inr ⟨h1, ?_, h3, ?_⟩
                  · rw [hposup s', if_neg hs']
                    exact h2
                  · intro tid' p' o' hrun
                    dsimp only at hrun
                    by_cases htid : tid' = tid
                    · rw [if_pos htid] at hrun
                      injection hrun with h
                      exact TaskSlot.noConfusion h
                    · rw [if_neg htid] at hrun
                      exact h4 tid' p' o' hrun
            · intro j s' tid' hj slot' hslot'
              dsimp only at hslot'
              by_cases htid : tid' = tid
              · rw [if_pos htid] at hslot'
                injection hslot' with h
                subst htid
                have := hinv.waitSid j s' tid' hj
                  (TaskSlot.running s (Act.dispatch src ps :: []) o) ht
                rw [← h]
                exact this
              · rw [if_neg htid] at hslot'
                exact hinv.waitSid j s' tid' hj slot' hslot'
            · intro tid' hge
              dsimp only at hge ⊢
              have hlt : tid < sys.nextTid := by
                by_contra hcon
                push_neg at hcon
                rw [hinv.fresh tid hcon] at ht
                exact Option.noConfusion ht
              rw [if_neg (by omega)]
              exact hinv.fresh tid' hge

theorem get?_set_other {α : Type} (l : List α) (i j : Nat) (a : α)
    (h : j ≠ i) : (l.set i a).get? j = l.get? j := by
  rw [List.get?_eq_getElem?, List.get?_eq_getElem?,
    List.getElem?_set_ne (fun hE => h hE.symm)]

theorem get?_set_cases {α : Type} (l : List α) (i j : Nat) (a b : α)
    (h : (l.set i a).get? j = some b) :
    (j = i ∧ b = a) ∨ (j ≠ i ∧ l.get? j = some b) := by
  by_cases hij : j = i
  · subst hij
    rw [List.get?_eq_getElem?, List.getElem?_set_self'] at h
    simp at h
    exact Or.inl ⟨rfl, h.2.symm⟩
  · exact Or.inr ⟨hij, by rw [← get?_set_other l i j a hij]; exact h⟩

theorem inv_callerStep (env : Env) (st0 : StoreState) (sys : Sys) (i : Nat)
    (_hwf : WFStore st0) (hinv : Inv env st0 sys) :
    Inv env st0 (callerStep env sys i) := by
  cases hc : sys.callers.get? i with
  | none =>
    have hstep : callerStep env sys i = sys := by
      simp only [callerStep, hc]
    rw [hstep]
    exact hinv
  | some caller =>
    obtain ⟨s, phase⟩ := caller
    cases phase with
    | done o =>
      have hstep : callerStep env sys i = sys := by
        simp only [callerStep, hc]
      rw [hstep]
      exact hinv
    | start =>
      cases hp : sys.store.positions s with
      | some ps =>
        have hstep : callerStep env sys i =
            { sys with callers := sys.callers.set i ⟨s,
                CallerPhase.done (Except.ok (some ps))⟩ } := by
          simp only [callerStep, hc, hp]
        rw [hstep]
        refine ⟨hinv.srcEq, hinv.reqTask, hinv.runReg, hinv.runOutcome,
          hinv.runPending, hinv.runNilPub, hinv.runStale, hinv.finOutcome,
          hinv.finPos, hinv.posPub, ?_, ?_, ?_, hinv.fresh⟩
        · intro j s' o' hj
          dsimp only at hj
          rcases get?_set_cases _ _ _ _ _ hj with ⟨hji, hb⟩ | ⟨hji, hb⟩
          · injection hb with hbs hbp
            injection hbp with hbo
            subst hbs
            rw [hbo]
            rcases hinv.posPub s' with h1 | ⟨h1, h2, h3, h4⟩
            · rw [h1] at hp
              simp only [canonicalOutcome, hp]
            · have hps : pubPos env st0 s' = some ps := by rw [← h2, hp]
              rcases taskSpec_shape env st0 s' with ⟨_, hpn⟩ |
                ⟨pre, src, ps2, heq2, hpre2, hok2, hsrc2, hpub2⟩
              · rw [hpn] at hps
                exact absurd hps (by simp)
              · simp only [canonicalOutcome, h1, hok2, hps]
          · exact hinv.doneOut j s' o' hb
        · intro j s' tid' hj
          dsimp only at hj ⊢
          rcases get?_set_cases _ _ _ _ _ hj with ⟨hji, hb⟩ | ⟨hji, hb⟩
          · injection hb with hbs hbp
            exact CallerPhase.noConfusion hbp
          · exact hinv.waitLt j s' tid' hb
        · intro j s' tid' hj
          dsimp only at hj
          rcases get?_set_cases _ _ _ _ _ hj with ⟨hji, hb⟩ | ⟨hji, hb⟩
          · injection hb with hbs hbp
            exact CallerPhase.noConfusion hbp
          · exact hinv.waitSid j s' tid' hb
      | none =>
        cases hr : sys.requests s with
        | some tid =>
          have hstep : callerStep env sys i =
              { sys with callers := sys.callers.set i ⟨s,
                  CallerPhase.waiting tid⟩ } := by
            simp only [callerStep, hc, hp, hr]
          rw [hstep]
          refine ⟨hinv.srcEq, hinv.reqTask, hinv.runReg, hinv.runOutcome,
            hinv.runPending, hinv.runNilPub, hinv.runStale, hinv.finOutcome,
            hinv.finPos, hinv.posPub, ?_, ?_, ?_, hinv.fresh⟩
          · intro j s' o' hj
            dsimp only at hj
            rcases get?_set_cases _ _ _ _ _ hj with ⟨hji, hb⟩ | ⟨hji, hb⟩
            · injection hb with hbs hbp
              exact CallerPhase.noConfusion hbp
            · exact hinv.doneOut j s' o' hb
          · intro j s' tid' hj
            dsimp only at hj ⊢
            rcases get?_set_cases _ _ _ _ _ hj with ⟨hji, hb⟩ | ⟨hji, hb⟩
            · injection hb with hbs hbp
              injection hbp with hbt
              subst hbt
              obtain ⟨p, o, htk⟩ := hinv.reqTask s tid' hr
              by_contra hcon
              push_neg at hcon
              rw [hinv.fresh tid' hcon] at htk
              exact Option.noConfusion htk
            · exact hinv.waitLt j s' tid' hb
          · intro j s' tid' hj
            dsimp only at hj
            rcases get?_set_cases _ _ _ _ _ hj with ⟨hji, hb⟩ | ⟨hji, hb⟩
            · injection hb with hbs hbp
              injection hbp with hbt
              subst hbt
              subst hbs
              intro slot hslot
              obtain ⟨p, o, htk⟩ := hinv.reqTask s' tid' hr
              rw [htk] at hslot
              injection hslot with h
              rw [← h]
              rfl
            · exact hinv.waitSid j s' tid' hb
        | none =>
          have hst0p : st0.positions s = none := by
            rcases hinv.posPub s with h1 | ⟨h1, h2, h3, h4⟩
            · rw [← h1, hp]
            · rw [hp] at h2
              exact absurd h2.symm h3
          have hspec : _setBreakpointPositions env (fun _ => sys.store) s =
              taskSpec env st0 s := by
            unfold taskSpec
            exact set_sources_only env _ _ s (fun k => hinv.srcEq)
          have hstep : callerStep env sys i =
              { sys with
                tasks := fun t =>
                  if t = sys.nextTid then
                    some (TaskSlot.running s
                      (_setBreakpointPositions env (fun _ => sys.store) s).2
                      (_setBreakpointPositions env (fun _ => sys.store) s).1)
                  else sys.tasks t
                requests := fun id =>
                  if id = s then some sys.nextTid else sys.requests id
                nextTid := sys.nextTid + 1
                callers := sys.callers.set i ⟨s,
                  CallerPhase.waiting sys.nextTid⟩ } := by
            simp only [callerStep, hc, hp, hr]
          rw [hstep, hspec]
          refine ⟨hinv.srcEq, ?_, ?_, ?_, ?_, ?_, ?_, ?_, ?_, ?_, ?_, ?_,
            ?_, ?_⟩
          · intro s' tid' hreq
            dsimp only at hreq ⊢
            by_cases hs' : s' = s
            · rw [if_pos hs'] at hreq
              injection hreq with hE
              subst hs'
              rw [if_pos hE.symm]
              exact ⟨_, _, rfl⟩
            · rw [if_neg hs'] at hreq
              obtain ⟨p', o', hrun⟩ := hinv.reqTask s' tid' hreq
              have hlt : tid' < sys.nextTid := by
                by_contra hcon
                push_neg at hcon
                rw [hinv.fresh tid' hcon] at hrun
                exact Option.noConfusion hrun
              rw [if_neg (by omega)]
              exact ⟨p', o', hrun⟩
          · intro tid' s' p' o' hrun
            dsimp only at hrun ⊢
            by_cases htid : tid' = sys.nextTid
            · rw [if_pos htid] at hrun
              injection hrun with h
              injection h with hA hB hC
              subst htid
              subst hA
              rw [if_pos rfl]
            · rw [if_neg htid] at hrun
              have h2 := hinv.runReg tid' s' p' o' hrun
              have hs' : s' ≠ s := by
                intro hE
                subst hE
                rw [h2] at hr
                exact Option.noConfusion hr
              rw [if_neg hs']
              exact h2
          · intro tid' s' p' o' hrun
            dsimp only at hrun
            by_cases htid : tid' = sys.nextTid
            · rw [if_pos htid] at hrun
              injection hrun with h
              injection h with hA hB hC
              rw [← hA, ← hC]
            · rw [if_neg htid] at hrun
              exact hinv.runOutcome tid' s' p' o' hrun
          · intro tid' s' p' o' hrun
            dsimp only at hrun
            by_cases htid : tid' = sys.nextTid
            · rw [if_pos htid] at hrun
              injection hrun with h
              injection h with hA hB hC
              rw [← hA, ← hB]
            · rw [if_neg htid] at hrun
              exact hinv.runPending tid' s' p' o' hrun
          · intro tid' s' p' o' hrun hpnil
            dsimp only at hrun
            by_cases htid : tid' = sys.nextTid
            · rw [if_pos htid] at hrun
              injection hrun with h
              injection h with hA hB hC
              subst hA
              rw [hpnil] at hB
              exact pubPos_of_nil env st0 s hB
            · rw [if_neg htid] at hrun
              exact hinv.runNilPub tid' s' p' o' hrun hpnil
          · intro tid' s' p' o' hrun
            dsimp only at hrun
            by_cases htid : tid' = sys.nextTid
            · rw [if_pos htid] at hrun
              injection hrun with h
              injection h with hA hB hC
              rw [← hA]
              exact hst0p
            · rw [if_neg htid] at hrun
              exact hinv.runStale tid' s' p' o' hrun
          · intro tid' s' o' hfin
            dsimp only at hfin
            by_cases htid : tid' = sys.nextTid
            · rw [if_pos htid] at hfin
              injection hfin with h
              exact TaskSlot.noConfusion h
            · rw [if_neg htid] at hfin
              exact hinv.finOutcome tid' s' o' hfin
          · intro tid' s' o' hfin
            dsimp only at hfin
            by_cases htid : tid' = sys.nextTid
            · rw [if_pos htid] at hfin
              injection hfin with h
              exact TaskSlot.noConfusion h
            · rw [if_neg htid] at hfin
              exact hinv.finPos tid' s' o' hfin
          · intro s'
            by_cases hs' : s' = s
            · subst hs'
              rcases hinv.posPub s' with h1 | ⟨h1, h2, h3, h4⟩
              · exact Or.inl h1
              · rw [hp] at h2
                exact absurd h2.symm h3
            · rcases hinv.posPub s' with h1 | ⟨h1, h2, h3, h4⟩
              · exact Or.inl h1
              · refine Or.inr ⟨h1, h2, h3, ?_⟩
                intro tid' p' o' hrun
                dsimp only at hrun
                by_cases htid : tid' = sys.nextTid
                · rw [if_pos htid] at hrun
                  injection hrun with h
                  injection h with hA hB hC
                  exact hs' hA.symm
                · rw [if_neg htid] at hrun
                  exact h4 tid' p' o' hrun
          · intro j s' o' hj
            dsimp only at hj
            rcases get?_set_cases _ _ _ _ _ hj with ⟨hji, hb⟩ | ⟨hji, hb⟩
            · injection hb with hbs hbp
              exact CallerPhase.noConfusion hbp
            · exact hinv.doneOut j s' o' hb
          · intro j s' tid' hj
            dsimp only at hj ⊢
            rcases get?_set_cases _ _ _ _ _ hj with ⟨hji, hb⟩ | ⟨hji, hb⟩
            · injection hb with hbs hbp
              injection hbp with hbt
              omega
            · have := hinv.waitLt j s' tid' hb
              omega
          · intro j s' tid' hj
            dsimp only at hj
            rcases get?_set_cases _ _ _ _ _ hj with ⟨hji, hb⟩ | ⟨hji, hb⟩
            · injection hb with hbs hbp
              injection hbp with hbt
              subst hbt
              subst hbs
              intro slot hslot
              dsimp only at hslot
              rw [if_pos rfl] at hslot
              injection hslot with h
              rw [← h]
              rfl
            · intro slot hslot
              dsimp only at hslot
              have hlt := hinv.waitLt j s' tid' hb
              rw [if_neg (by omega)] at hslot
              exact hinv.waitSid j s' tid' hb slot hslot
          · intro tid' hge
            dsimp only at hge ⊢
            rw [if_neg (by omega)]
            exact hinv.fresh tid' (by omega)
    | waiting tid =>
      cases htk : sys.tasks tid with
      | none =>
        have hstep : callerStep env sys i = sys := by
          simp only [callerStep, hc, htk]
        rw [hstep]
        exact hinv
      | some slot =>
        cases slot with
        | running s' p o =>
          have hstep : callerStep env sys i = sys := by
            simp only [callerStep, hc, htk]
          rw [hstep]
          exact hinv
        | finished s' o =>
          have hsid : s' = s :=
            hinv.waitSid i s tid hc (TaskSlot.finished s' o) htk
          subst hsid
          have hstep : callerStep env sys i =
              { sys with callers := sys.callers.set i ⟨s',
                  CallerPhase.done (resumeWaiter o sys.store s')⟩ } := by
            simp only [callerStep, hc, htk]
          rw [hstep]
          refine ⟨hinv.srcEq, hinv.reqTask, hinv.runReg, hinv.runOutcome,
            hinv.runPending, hinv.runNilPub, hinv.runStale, hinv.finOutcome,
            hinv.finPos, hinv.posPub, ?_, ?_, ?_, hinv.fresh⟩
          · intro j s2 o2 hj
            dsimp only at hj
            rcases get?_set_cases _ _ _ _ _ hj with ⟨hji, hb⟩ | ⟨hji, hb⟩
            · injection hb with hbs hbp
              injection hbp with hbo
              subst hbs
              rw [hbo]
              have hfo := hinv.finOutcome tid s2 o htk
              have hfp := hinv.finPos tid s2 o htk
              cases ho : o with
              | error e =>
                simp only [resumeWaiter, canonicalOutcome, hfp.2]
                rw [ho] at hfo
                rw [← hfo]
              | ok u =>
                simp only [resumeWaiter, canonicalOutcome, hfp.2]
                rw [ho] at hfo
                rw [← hfo, hfp.1]
            · exact hinv.doneOut j s2 o2 hb
          · intro j s2 tid2 hj
            dsimp only at hj ⊢
            rcases get?_set_cases _ _ _ _ _ hj with ⟨hji, hb⟩ | ⟨hji, hb⟩
            · injection hb with hbs hbp
              exact CallerPhase.noConfusion hbp
            · exact hinv.waitLt j s2 tid2 hb
          · intro j s2 tid2 hj
            dsimp only at hj
            rcases get?_set_cases _ _ _ _ _ hj with ⟨hji, hb⟩ | ⟨hji, hb⟩
            · injection hb with hbs hbp
              exact CallerPhase.noConfusion hbp
            · exact hinv.waitSid j s2 tid2 hb

theorem inv_step (env : Env) (st0 : StoreState) (hwf : WFStore st0)
    (sys : Sys) (hinv : Inv env st0 sys) (ch : Choice) :
    Inv env st0 (step env sys ch) := by
  cases ch with
  | caller i => exact inv_callerStep env st0 sys i hwf hinv
  | task tid => exact inv_taskStep env st0 sys tid hwf hinv

theorem inv_init (env : Env) (st0 : StoreState) (ids : List SourceId) :
    Inv env st0 (initSys st0 ids) := by
  refine ⟨rfl, ?_, ?_, ?_, ?_, ?_, ?_, ?_, ?_, ?_, ?_, ?_, ?_, ?_⟩
  · intro s tid h
    exact Option.noConfusion h
  · intro tid s p o h
    exact Option.noConfusion h
  · intro tid s p o h
    exact Option.noConfusion h
  · intro tid s p o h
    exact Option.noConfusion h
  · intro tid s p o h
    exact Option.noConfusion h
  · intro tid s p o h
    exact Option.noConfusion h
  · intro tid s o h
    exact Option.noConfusion h
  · intro tid s o h
    exact Option.noConfusion h
  · intro s
    exact Or.inl rfl
  · intro j s o hj
    simp only [initSys, List.get?_eq_getElem?, List.getElem?_map] at hj
    cases hid : ids[j]? with
    | none => rw [hid] at hj; exact Option.noConfusion hj
    | some id =>
      rw [hid] at hj
      injection hj with h
      injection h with hA hB
      exact CallerPhase.noConfusion hB
  · intro j s tid hj
    simp only [initSys, List.get?_eq_getElem?, List.getElem?_map] at hj
    cases hid : ids[j]? with
    | none => rw [hid] at hj; exact Option.noConfusion hj
    | some id =>
      rw [hid] at hj
      injection hj with h
      injection h with hA hB
      exact CallerPhase.noConfusion hB
  · intro j s tid hj
    simp only [initSys, List.get?_eq_getElem?, List.getElem?_map] at hj
    cases hid : ids[j]? with
    | none => rw [hid] at hj; exact Option.noConfusion hj
    | some id =>
      rw [hid] at hj
      injection hj with h
      injection h with hA hB
      exact CallerPhase.noConfusion hB
  · intro tid _
    rfl

theorem inv_runChoices (env : Env) (st0 : StoreState) (hwf : WFStore st0) :
    ∀ (cs : List Choice) (sys : Sys), Inv env st0 sys →
      Inv env st0 (runChoices env sys cs) := by
  intro cs
  induction cs with
  | nil => intro sys h; exact h
  | cons c cs ih =>
    intro sys h
    exact ih (step env sys c) (inv_step env st0 hwf sys h c)

theorem wf_storeW : WFStore storeW := by
  intro id src h
  simp only [storeW] at h
  by_cases hid : id = "g"
  · rw [if_pos hid] at h
    injection h with h2
    rw [← h2, hid]
    rfl
  · rw [if_neg hid] at h
    exact Option.noConfusion h

/-- C1: in every run of the system from a well-formed store, a further
call that observes a registered resolution task for its source id
registers no new task, issues no collaborator call, and merely suspends
on the registered task (the whole system other than the caller's own
phase is unchanged); and any two completed calls for the same source id
observe the same outcome — in particular every waiter observes the task
owner's outcome. -/
theorem c1_request_coalescing (env : Env) (st0 : StoreState)
    (hwf : WFStore st0) (ids : List SourceId) (cs : List Choice) :
    (∀ i s tid,
      (runChoices env (initSys st0 ids) cs).callers.get? i =
        some ⟨s, CallerPhase.start⟩ →
      (runChoices env (initSys st0 ids) cs).requests s = some tid →
      step env (runChoices env (initSys st0 ids) cs) (Choice.caller i) =
        { runChoices env (initSys st0 ids) cs with callers :=
            (runChoices env (initSys st0 ids) cs).callers.set i ⟨s,
              CallerPhase.waiting tid⟩ }) ∧
    (∀ i j s o₁ o₂,
      (runChoices env (initSys st0 ids) cs).callers.get? i =
        some ⟨s, CallerPhase.done o₁⟩ →
      (runChoices env (initSys st0 ids) cs).callers.get? j =
        some ⟨s, CallerPhase.done o₂⟩ →
      o₁ = o₂) := by
  have hinv := inv_runChoices env st0 hwf cs (initSys st0 ids)
    (inv_init env st0 ids)
  constructor
  · intro i s tid hc hr
    have hposn :
        (runChoices env (initSys st0 ids) cs).store.positions s = none := by
      obtain ⟨p, o, htk⟩ := hinv.reqTask s tid hr
      rcases hinv.posPub s with h1 | ⟨h1, h2, h3, h4⟩
      · rw [h1]
        exact hinv.runStale tid s p o htk
      · exact absurd htk (h4 tid p o)
    simp only [step, callerStep, hc, hposn, hr]
  · intro i j s o₁ o₂ hi hj
    rw [hinv.doneOut i s o₁ hi, hinv.doneOut j s o₂ hj]

/-- C1 witness: with two callers for `"g"`, after the first has
registered the resolution task, the second call's step only suspends it
on that task. -/
theorem c1_request_coalescing_witness :
    step envW (runChoices envW (initSys storeW ["g", "g"]) [Choice.caller 0])
        (Choice.caller 1) =
      { runChoices envW (initSys storeW ["g", "g"]) [Choice.caller 0] with
        callers :=
          (runChoices envW (initSys storeW ["g", "g"])
            [Choice.caller 0]).callers.set 1 ⟨"g", CallerPhase.waiting 0⟩ } :=
  (c1_request_coalescing envW storeW wf_storeW ["g", "g"]
    [Choice.caller 0]).1 1 "g" 0 (by decide) (by decide)

end BreakpointPositions
